import Mathlib

/-!
Stock Market Prediction Game (`src/app.js`)

A shallow embedding of the game engine of `src/app.js` and the properties of it
that the specification states.

Modelling conventions.

* A JavaScript number is a `JSNum`: a finite double is represented by the
  rational number it denotes, next to `NaN`, `Infinity` and `-Infinity`.
  The code only inspects the sign of a difference of two numbers
  (`delta > 0`, `delta < 0`, `delta === 0`); the sign of the rounded difference
  of two finite doubles is the sign of the exact difference, so subtraction is
  modelled exactly.
* A `Date` is its time value in milliseconds, or `none` for an Invalid Date.
  Local time has a fixed offset from UTC, so `setDate(getDate() - n)` moves the
  time value back by `n` days of 86 400 000 ms.
* The ambient inputs `new Date()` and `Math.random()` are explicit arguments
  (`today`, `random`), as are the built-ins that read strings
  (`new Date(dateStr + 'T00:00:00')` and `parseFloat`) and the double product
  `fmul` of `Math.random() * eligible.length`, whose rounding decides the index
  drawn.
* The global `state` and the DOM fields the handlers write are one record,
  `App`; every handler is a function from `App` to `App`.
-/

namespace StockGame

/-! ## JavaScript values -/

/-- A JavaScript number: a finite value, `NaN`, `Infinity` or `-Infinity`. -/
inductive JSNum where
  | num (q : ℚ)
  | nan
  | posInf
  | negInf
  deriving DecidableEq

namespace JSNum

/-- `Number.isFinite(x)`. -/
def isFinite : JSNum → Bool
  | num _ => true
  | _ => false

/-- `x - y` on numbers. -/
def sub : JSNum → JSNum → JSNum
  | num a, num b => num (a - b)
  | nan, _ => nan
  | _, nan => nan
  | posInf, posInf => nan
  | negInf, negInf => nan
  | posInf, _ => posInf
  | negInf, _ => negInf
  | num _, posInf => negInf
  | num _, negInf => posInf

/-- `x > 0`. -/
def gtZero : JSNum → Bool
  | num q => decide (0 < q)
  | posInf => true
  | _ => false

/-- `x < 0`. -/
def ltZero : JSNum → Bool
  | num q => decide (q < 0)
  | negInf => true
  | _ => false

/-- `x === 0`. -/
def isZero : JSNum → Bool
  | num q => decide (q = 0)
  | _ => false

end JSNum

/-- Milliseconds in one day. -/
def msPerDay : Int := 86400000

/-- A `Date` object: its time value in milliseconds, `none` for an Invalid Date. -/
abbrev JSDate := Option Int

/-- `d >= bound` for a `Date` `d` and a valid `Date` with time value `bound`
(a comparison with an Invalid Date is false). -/
def JSDate.ge (d : JSDate) (bound : Int) : Bool :=
  match d with
  | some t => decide (bound ≤ t)
  | none => false

/-- `d <= bound` for a `Date` `d` and a valid `Date` with time value `bound`. -/
def JSDate.le (d : JSDate) (bound : Int) : Bool :=
  match d with
  | some t => decide (t ≤ bound)
  | none => false

/-- The calendar day (number of whole days since the epoch) of a time value. -/
def dayOf (t : Int) : Int := t / msPerDay

/-! ## Data model -/

/-- One element of `state.data`: `{ date: Date, dateStr: 'YYYY-MM-DD', close: number }`. -/
structure Entry where
  dateStr : String
  date : JSDate
  close : JSNum
  deriving DecidableEq

/-- A price bar of the raw payload; each field is a string when present. -/
structure Bar where
  adjustedClose : Option String
  close : Option String
  deriving DecidableEq

/-- The Chart.js object as far as the code touches it: the labels and the one dataset. -/
structure Chart where
  labels : List String
  data : List JSNum
  deriving DecidableEq

/-- The text of `dom.instruction`. -/
inductive Instruction where
  | enterTicker
  | predict
  | gameEnded
  deriving DecidableEq

/-- The text of `dom.feedback`, kept as the fields the template strings are built from. -/
inductive Feedback where
  | empty
  | noMoreData
  | correct (dateStr : String) (close : JSNum) (delta : JSNum)
  | wrong (verdict : String) (dateStr : String) (close : JSNum) (delta : JSNum)
  deriving DecidableEq

/-- The DOM fields written by the handlers. -/
structure Dom where
  statusTicker : Option String
  currentDate : Option String
  score : Nat
  instruction : Instruction
  feedback : Feedback
  guessUpDisabled : Bool
  guessDownDisabled : Bool
  endGameDisabled : Bool
  resetDisabled : Bool
  errorHidden : Bool
  errorText : String
  loadingHidden : Bool
  startDisabled : Bool
  tickerDisabled : Bool
  apiKeyDisabled : Bool
  deriving DecidableEq

/-- The global `state` object. -/
structure State where
  symbol : Option String
  apiKey : Option String
  data : List Entry
  chart : Option Chart
  currentIndex : Option Nat
  score : Nat
  inProgress : Bool
  deriving DecidableEq

/-- The whole mutable world of the page: `state` and `dom`. -/
structure App where
  state : State
  dom : Dom
  deriving DecidableEq

/-- The awaited result of `fetch(url)` followed by `res.json()`, as far as the code reads it. -/
structure Response where
  ok : Bool
  status : Nat
  statusText : String
  errorMessage : Option String
  note : Option String
  timeSeries : Option (List (String × Bar))

/-! ## DOM helpers -/

/-- The function `setLoading(isLoading)`. -/
def setLoading (isLoading : Bool) (a : App) : App :=
  { a with dom := { a.dom with
      loadingHidden := !isLoading
      startDisabled := isLoading
      tickerDisabled := isLoading
      apiKeyDisabled := isLoading } }

/-- The function `showError(message)`. -/
def showError (message : String) (a : App) : App :=
  { a with dom := { a.dom with errorHidden := false, errorText := message } }

/-- The function `clearError()`. -/
def clearError (a : App) : App :=
  { a with dom := { a.dom with errorHidden := true, errorText := "" } }

/-! ## Series normaliser -/

/-- The expression `bar['5. adjusted close'] || bar['4. close']`: the adjusted close unless
it is missing or the empty string (the falsy strings), otherwise the close. -/
def Bar.priceField (bar : Bar) : Option String :=
  match bar.adjustedClose with
  | some s => if s = "" then bar.close else some s
  | none => bar.close

/-- The comparator `(a, b) => a.date - b.date`: `none` is `NaN`. -/
def compareDates (a b : Entry) : Option Int :=
  match a.date, b.date with
  | some x, some y => some (x - y)
  | _, _ => none

/-- Whether `sort` may leave `a` before `b`: the comparator's value, with `NaN` read as
`+0`, is not positive. -/
def sortLE (a b : Entry) : Bool :=
  match compareDates a b with
  | some v => decide (v ≤ 0)
  | none => true

/-- `Array.prototype.sort((a, b) => a.date - b.date)`: a stable sort by the comparator. -/
def sortByDate (l : List Entry) : List Entry :=
  l.insertionSort (fun a b => sortLE a b = true)

/-- The function `parseTimeSeries(json)`. The argument is `json['Time Series (Daily)']`:
`none` when the field is missing, falsy or not an object, otherwise its
`Object.entries`. `toDate s` is `new Date(s + 'T00:00:00')` and `parseFloat` is the
built-in, applied to a string or to `undefined` (`none`). -/
def parseTimeSeries (toDate : String → JSDate) (parseFloat : Option String → JSNum)
    (series : Option (List (String × Bar))) : List Entry :=
  match series with
  | none => []
  | some s =>
    sortByDate
      ((s.map (fun p =>
          ({ dateStr := p.1, date := toDate p.1, close := parseFloat p.2.priceField } : Entry))).filter
        (fun p => p.close.isFinite))

/-! ## Start selector -/

/-- The loop of `pickRandomStartIndex`: the indices `i` with
`e.date >= minDate && e.date <= maxDate`, `i - 7 >= 0` and `i + 1 < entries.length`,
in ascending order. -/
def eligibleIndices (entries : List Entry) (minDate maxDate : Int) : List Nat :=
  (List.range entries.length).filter (fun i =>
    match entries[i]? with
    | some e =>
      (e.date.ge minDate && e.date.le maxDate) &&
        (decide ((i : Int) - 7 ≥ 0) && decide (i + 1 < entries.length))
    | none => false)

/-- The function `pickRandomStartIndex(entries)`, with `new Date()` as `today` and
`Math.random()` as `random`; `fmul x y` is the JavaScript product `x * y` of two doubles,
the exact product rounded to the nearest double, so that `fmul random n` is the value
of `Math.random() * eligible.length`. The result `none` stands for `null` (and for the
`undefined` of an out-of-range lookup, which the caller treats like `null`). -/
def pickRandomStartIndex (fmul : ℚ → ℚ → ℚ) (today : Int) (random : ℚ)
    (entries : List Entry) : Option Nat :=
  if entries.length = 0 then none
  else
    let minDate := today - 100 * msPerDay
    let maxDate := today - 7 * msPerDay
    let eligible := eligibleIndices entries minDate maxDate
    if eligible.length = 0 then none
    else
      let randomIndex : Int := Int.floor (fmul random (eligible.length : ℚ))
      if randomIndex < 0 then none else eligible[randomIndex.toNat]?

/-! ## Chart -/

/-- The function `createChart(labels, data)`: the old chart is destroyed, a new one made. -/
def createChart (labels : List String) (data : List JSNum) (a : App) : App :=
  { a with state := { a.state with chart := some { labels := labels, data := data } } }

/-- The function `updateChart(nextLabel, nextValue)`. -/
def updateChart (nextLabel : String) (nextValue : JSNum) (a : App) : App :=
  match a.state.chart with
  | none => a
  | some c =>
    { a with state := { a.state with
        chart := some { labels := c.labels ++ [nextLabel], data := c.data ++ [nextValue] } } }

/-- `Array.prototype.slice(start, stop)` for a non-negative `stop`; a negative `start`
counts from the end of the array. -/
def slice {α : Type} (l : List α) (start : Int) (stop : Nat) : List α :=
  let k : Nat := if start < 0 then ((l.length : Int) + start).toNat else min start.toNat l.length
  ((l.drop k).take (min stop l.length - k))

/-! ## Game state machine -/

/-- The function `resetUI()`. -/
def resetUI (a : App) : App :=
  { state :=
      { symbol := none
        apiKey := none
        data := []
        chart := none
        currentIndex := none
        score := 0
        inProgress := false }
    dom := { a.dom with
      statusTicker := none
      currentDate := none
      score := 0
      instruction := Instruction.enterTicker
      feedback := Feedback.empty
      guessUpDisabled := true
      guessDownDisabled := true
      endGameDisabled := true
      resetDisabled := false } }

/-- The message of the error thrown by `startGameWithData` when no start index exists. -/
def notEnoughData : String :=
  "Not enough recent data to start the game. Try another ticker."

/-- The function `startGameWithData(symbol, apiKey, entries)`. The result is the world
after the call and the message of the error thrown, if one was. A `TypeError` from
reading `entries[startIndex - 1].dateStr` would leave the assignments before it in
place. `toUpperCase()` is `String.toUpper`, which agrees with it on ASCII tickers. -/
def startGameWithData (fmul : ℚ → ℚ → ℚ) (today : Int) (random : ℚ) (symbol apiKey : String)
    (entries : List Entry) (a : App) : App × Option String :=
  match pickRandomStartIndex fmul today random entries with
  | none => (a, some notEnoughData)
  | some startIndex =>
    let a1 : App :=
      { state := { a.state with
          symbol := some symbol.toUpper
          apiKey := some apiKey
          data := entries
          currentIndex := some startIndex
          score := 0
          inProgress := true }
        dom := { a.dom with statusTicker := some symbol.toUpper, score := 0 } }
    match (if startIndex = 0 then none else entries[startIndex - 1]?) with
    | none => (a1, some "TypeError")
    | some shown =>
      let a2 : App :=
        { a1 with dom := { a1.dom with
            currentDate := some shown.dateStr
            instruction := Instruction.predict
            feedback := Feedback.empty } }
      let seedStart : Int := (startIndex : Int) - 7
      let labels := (slice entries seedStart startIndex).map (fun e => e.dateStr)
      let values := (slice entries seedStart startIndex).map (fun e => e.close)
      let a3 := createChart labels values a2
      ({ a3 with dom := { a3.dom with
          guessUpDisabled := false
          guessDownDisabled := false
          endGameDisabled := false
          resetDisabled := false } }, none)

/-- The function `handleGuess(direction)`. With `currentIndex` still `null`,
`state.data[null]` is `undefined` and `null + 1` is `1`; reading `.close` of
`undefined` throws before any assignment, which leaves the world as it was. -/
def handleGuess (direction : String) (a : App) : App :=
  if !a.state.inProgress then a
  else
    let current : Option Entry :=
      match a.state.currentIndex with
      | some i => a.state.data[i]?
      | none => none
    let nextIndex : Nat :=
      match a.state.currentIndex with
      | some i => i + 1
      | none => 1
    if nextIndex ≥ a.state.data.length then
      { state := { a.state with inProgress := false }
        dom := { a.dom with
          feedback := Feedback.noMoreData
          guessUpDisabled := true
          guessDownDisabled := true } }
    else
      match a.state.data[nextIndex]?, current with
      | some next, some cur =>
        let delta := next.close.sub cur.close
        let correct : Bool :=
          if direction = "up" then delta.gtZero
          else if direction = "down" then delta.ltZero
          else false
        let a1 : App :=
          if correct then
            { state := { a.state with score := a.state.score + 1 }
              dom := { a.dom with feedback := Feedback.correct next.dateStr next.close delta } }
          else
            let unchanged := delta.isZero
            let verdict := if unchanged then "unchanged" else "incorrect"
            { a with dom := { a.dom with
                feedback := Feedback.wrong verdict next.dateStr next.close delta } }
        let a2 : App := { a1 with dom := { a1.dom with score := a1.state.score } }
        let a3 := updateChart next.dateStr next.close a2
        { state := { a3.state with currentIndex := some nextIndex }
          dom := { a3.dom with currentDate := some next.dateStr } }
      | _, _ => a

/-- The function `endGame()`. -/
def endGame (a : App) : App :=
  { state := { a.state with inProgress := false }
    dom := { a.dom with
      guessUpDisabled := true
      guessDownDisabled := true
      instruction := Instruction.gameEnded } }

/-- The function `resetGame()`. -/
def resetGame (a : App) : App :=
  resetUI a

/-! ## Quote source and the submit handler -/

/-- The function `fetchTimeSeriesDailyAdjusted(symbol, apiKey)` from the awaited response
on: the thrown error's message, or the parsed entries. -/
def fetchTimeSeriesDailyAdjusted (toDate : String → JSDate)
    (parseFloat : Option String → JSNum) (res : Response) : Except String (List Entry) :=
  if !res.ok then
    Except.error ("Network error: " ++ toString res.status ++ " " ++ res.statusText)
  else if res.errorMessage.isSome && res.errorMessage ≠ some "" then
    Except.error "Invalid ticker symbol. Please try a different one."
  else if res.note.isSome && res.note ≠ some "" then
    Except.error "API rate limit reached. Please wait and try again."
  else
    let entries := parseTimeSeries toDate parseFloat res.timeSeries
    if entries.length = 0 then Except.error "No price data available for this ticker."
    else Except.ok entries

/-- The message shown by the `catch` block: `err.message || 'Failed to load data.'`. -/
def errorMessageOf (message : String) : String :=
  if message = "" then "Failed to load data." else message

/-- The `submit` listener of the form, run to completion. `tickerValue` and `apiKeyValue`
are the two input fields; `fetched` is the outcome of `fetch` and `res.json()`: the
message of a rejection, or the response. -/
def submitHandler (toDate : String → JSDate) (parseFloat : Option String → JSNum)
    (fmul : ℚ → ℚ → ℚ) (today : Int) (random : ℚ) (tickerValue apiKeyValue : String)
    (fetched : Except String Response) (a : App) : App :=
  let a := resetUI (clearError a)
  let symbolRaw := tickerValue.trim
  let apiKeyRaw := apiKeyValue.trim
  if symbolRaw = "" then showError "Please enter a stock ticker." a
  else if apiKeyRaw = "" then showError "Please enter your Alpha Vantage API key." a
  else
    let a := setLoading true a
    let a :=
      match fetched.bind (fetchTimeSeriesDailyAdjusted toDate parseFloat) with
      | Except.error msg => showError (errorMessageOf msg) a
      | Except.ok entries =>
        match startGameWithData fmul today random symbolRaw apiKeyRaw entries a with
        | (a1, none) => a1
        | (a1, some msg) => showError (errorMessageOf msg) a1
    setLoading false a

/-- The world after the script has loaded: `state` as declared at the top of the file,
then `resetUI()`; the remaining DOM fields are those of the page. -/
def initialApp (dom : Dom) : App :=
  resetUI
    { state :=
        { symbol := none
          apiKey := none
          data := []
          chart := none
          currentIndex := none
          score := 0
          inProgress := false }
      dom := dom }

/-! ## Specification-side notions -/

/-- The correctness predicate of the specification for a guess against the signed
change `delta`: up with `delta > 0`, or down with `delta < 0`. -/
def guessIsCorrect (direction : String) (delta : JSNum) : Prop :=
  (direction = "up" ∧ delta.gtZero = true) ∨ (direction = "down" ∧ delta.ltZero = true)

instance (direction : String) (delta : JSNum) : Decidable (guessIsCorrect direction delta) := by
  unfold guessIsCorrect
  infer_instance

/-- The state after the guesses `dirs`, made one after the other. -/
def guesses (dirs : List String) (a : App) : App :=
  dirs.foldl (fun acc d => handleGuess d acc) a

/-- Whether a guess made with reference index `i` is scored (a next point exists) and
satisfies the correctness predicate. -/
def scoredCorrect (data : List Entry) (i : Nat) (direction : String) : Prop :=
  match data[i]?, data[i + 1]? with
  | some cur, some next => guessIsCorrect direction (next.close.sub cur.close)
  | _, _ => False

instance (data : List Entry) (i : Nat) (direction : String) :
    Decidable (scoredCorrect data i direction) := by
  unfold scoredCorrect
  split <;> infer_instance

/-- The number of guesses in `dirs`, made one after the other from reference index `i`,
that are scored and satisfy the correctness predicate; the `j`-th guess (from 0) is made
at reference index `i + j`. -/
def correctCount (data : List Entry) : Nat → List String → Nat
  | _, [] => 0
  | i, d :: ds => (if scoredCorrect data i d then 1 else 0) + correctCount data (i + 1) ds

/-- The date of `entries[i]` lies in the inclusive window from `today` minus 100 days to
`today` minus 7 days. -/
def InWindow (today : Int) (entries : List Entry) (i : Nat) : Prop :=
  ∃ e t, entries[i]? = some e ∧ e.date = some t ∧
    today - 100 * msPerDay ≤ t ∧ t ≤ today - 7 * msPerDay

/-- The eligibility of the specification: the date of `entries[i]` lies in the window,
`i - 7 ≥ 0` and `i + 1 < entries.length`. -/
def Eligible (today : Int) (entries : List Entry) (i : Nat) : Prop :=
  InWindow today entries i ∧ (i : Int) - 7 ≥ 0 ∧ i + 1 < entries.length

/-- The `state` that `resetUI` leaves: no symbol, empty series, no chart, no index,
score 0, not in progress. -/
def idleState : State :=
  { symbol := none
    apiKey := none
    data := []
    chart := none
    currentIndex := none
    score := 0
    inProgress := false }

/-- Strictly earlier: both dates are valid and the first time value is smaller. -/
def dateLT (x y : Entry) : Prop :=
  ∃ tx ty, x.date = some tx ∧ y.date = some ty ∧ tx < ty

/-- The worlds the page can be in: the world after loading, and every world a listener
(submit, guess up or down, end game, reset) leaves when run on such a world. -/
inductive Reachable (toDate : String → JSDate) (parseFloat : Option String → JSNum)
    (fmul : ℚ → ℚ → ℚ) : App → Prop where
  | init (dom : Dom) : Reachable toDate parseFloat fmul (initialApp dom)
  | submit (today : Int) (random : ℚ) (tickerValue apiKeyValue : String)
      (fetched : Except String Response) (a : App) :
      Reachable toDate parseFloat fmul a →
      Reachable toDate parseFloat fmul
        (submitHandler toDate parseFloat fmul today random tickerValue apiKeyValue fetched a)
  | guessUp (a : App) :
      Reachable toDate parseFloat fmul a → Reachable toDate parseFloat fmul (handleGuess "up" a)
  | guessDown (a : App) :
      Reachable toDate parseFloat fmul a → Reachable toDate parseFloat fmul (handleGuess "down" a)
  | stop (a : App) :
      Reachable toDate parseFloat fmul a → Reachable toDate parseFloat fmul (endGame a)
  | reset (a : App) :
      Reachable toDate parseFloat fmul a → Reachable toDate parseFloat fmul (resetGame a)

/-- The point that a raw entry stands for: its date string, the date it denotes and its
chosen price field, parsed. -/
def rawPoint (toDate : String → JSDate) (parseFloat : Option String → JSNum)
    (p : String × Bar) : Entry :=
  { dateStr := p.1, date := toDate p.1, close := parseFloat p.2.priceField }

/-- The phases of the specification. -/
inductive Phase where
  | idle
  | active
  | ended
  deriving DecidableEq

/-- The phase of a state: active while a game is in progress; ended when a game has been
started (`symbol` is set) and is not in progress; idle otherwise. -/
def phase (s : State) : Phase :=
  if s.inProgress then Phase.active
  else if s.symbol.isSome then Phase.ended
  else Phase.idle

/-- A command that is not a start: a guess or the end of the game. -/
inductive Command where
  | guess (direction : String)
  | endGame
  deriving DecidableEq

/-- The handler that a command runs. -/
def Command.run : Command → App → App
  | Command.guess direction, a => handleGuess direction a
  | Command.endGame, a => StockGame.endGame a

/-- The world after the commands `cmds`, run one after the other. -/
def runCommands (cmds : List Command) (a : App) : App :=
  cmds.foldl (fun acc c => c.run acc) a

/-- The date of `entries[i]` lies, as a calendar day, in the inclusive window from the day
of `today` minus 100 to the day of `today` minus 7. -/
def InDayWindow (today : Int) (entries : List Entry) (i : Nat) : Prop :=
  ∃ e t, entries[i]? = some e ∧ e.date = some t ∧
    dayOf today - 100 ≤ dayOf t ∧ dayOf t ≤ dayOf today - 7

/-- Eligibility with the window taken at day precision. -/
def EligibleByDay (today : Int) (entries : List Entry) (i : Nat) : Prop :=
  InDayWindow today entries i ∧ (i : Int) - 7 ≥ 0 ∧ i + 1 < entries.length

/-- The displayed current date is the label of the last point on the chart. -/
def DateShown (a : App) : Prop :=
  ∃ c, a.state.chart = some c ∧ c.labels ≠ [] ∧ a.dom.currentDate = c.labels.getLast?

/-- The eligible indices as `pickRandomStartIndex` computes them at the time `today`. -/
def eligibleAt (today : Int) (entries : List Entry) : List Nat :=
  eligibleIndices entries (today - 100 * msPerDay) (today - 7 * msPerDay)

/-- A rational number that is a finite double: `m * 2 ^ e` with `|m| < 2 ^ 53` and
`-1074 ≤ e ≤ 971`. -/
def IsDouble (x : ℚ) : Prop :=
  ∃ m e : Int, |m| < 2 ^ 53 ∧ -1074 ≤ e ∧ e ≤ 971 ∧ x = (m : ℚ) * (2 : ℚ) ^ e

/-! ## Scenario data -/

/-- The double product on arguments whose exact product is a double, where no rounding
occurs; the products of the scenarios (0, 1/2 and 1) are of this kind. -/
def exactProduct (x y : ℚ) : ℚ := x * y

/-- A page whose fields hold what `resetUI` and `clearError` leave, nothing loading. -/
def blankDom : Dom :=
  { statusTicker := none
    currentDate := none
    score := 0
    instruction := Instruction.enterTicker
    feedback := Feedback.empty
    guessUpDisabled := true
    guessDownDisabled := true
    endGameDisabled := true
    resetDisabled := false
    errorHidden := true
    errorText := ""
    loadingHidden := true
    startDisabled := false
    tickerDisabled := false
    apiKeyDisabled := false }

/-- An in-progress game on `data` at reference index `i` with score 0 and a chart that
shows `shown`. -/
def gameAt (data : List Entry) (i : Nat) (shown : List Entry) : App :=
  { state :=
      { symbol := some "IBM"
        apiKey := some "demo"
        data := data
        chart := some { labels := shown.map (fun e => e.dateStr),
                        data := shown.map (fun e => e.close) }
        currentIndex := some i
        score := 0
        inProgress := true }
    dom := { blankDom with
      statusTicker := some "IBM"
      instruction := Instruction.predict
      guessUpDisabled := false
      guessDownDisabled := false
      endGameDisabled := false } }

/-- The series of scenarios 1 and 2: closes 10, 10, 12 on three consecutive days. -/
def series3 : List Entry :=
  [ { dateStr := "2024-01-02", date := some 1704153600000, close := JSNum.num 10 },
    { dateStr := "2024-01-03", date := some 1704240000000, close := JSNum.num 10 },
    { dateStr := "2024-01-04", date := some 1704326400000, close := JSNum.num 12 } ]

/-- The series of scenario 3: closes 10, 10. -/
def series2 : List Entry :=
  [ { dateStr := "2024-01-02", date := some 1704153600000, close := JSNum.num 10 },
    { dateStr := "2024-01-03", date := some 1704240000000, close := JSNum.num 10 } ]

/-- Ten consecutive trading days, 2024-01-02 to 2024-01-15, dated at midnight UTC. -/
def series10 : List Entry :=
  [ { dateStr := "2024-01-02", date := some 1704153600000, close := JSNum.num 185 },
    { dateStr := "2024-01-03", date := some 1704240000000, close := JSNum.num 184 },
    { dateStr := "2024-01-04", date := some 1704326400000, close := JSNum.num 181 },
    { dateStr := "2024-01-05", date := some 1704412800000, close := JSNum.num 181 },
    { dateStr := "2024-01-08", date := some 1704672000000, close := JSNum.num 185 },
    { dateStr := "2024-01-09", date := some 1704758400000, close := JSNum.num 185 },
    { dateStr := "2024-01-10", date := some 1704844800000, close := JSNum.num 186 },
    { dateStr := "2024-01-11", date := some 1704931200000, close := JSNum.num 185 },
    { dateStr := "2024-01-12", date := some 1705017600000, close := JSNum.num 186 },
    { dateStr := "2024-01-15", date := some 1705276800000, close := JSNum.num 183 } ]

/-- The series of scenario 5: six points older than the window, one point inside it
(index 6) and one point after it. -/
def series8 : List Entry :=
  [ { dateStr := "2023-09-01", date := some 1693526400000, close := JSNum.num 189 },
    { dateStr := "2023-09-05", date := some 1693872000000, close := JSNum.num 189 },
    { dateStr := "2023-09-06", date := some 1693958400000, close := JSNum.num 182 },
    { dateStr := "2023-09-07", date := some 1694044800000, close := JSNum.num 177 },
    { dateStr := "2023-09-08", date := some 1694131200000, close := JSNum.num 178 },
    { dateStr := "2023-09-11", date := some 1694390400000, close := JSNum.num 179 },
    { dateStr := "2024-01-10", date := some 1704844800000, close := JSNum.num 186 },
    { dateStr := "2024-01-24", date := some 1706054400000, close := JSNum.num 194 } ]

/-- The reference time of the scenarios: 2024-01-25, 12:00 UTC. -/
def noon25Jan : Int := 1706184000000

/-- A response that carries the two bars of 2024-01-02 and 2024-01-03. -/
def twoBarResponse : Response :=
  { ok := true
    status := 200
    statusText := "OK"
    errorMessage := none
    note := none
    timeSeries := some
      [ ("2024-01-03", { adjustedClose := some "184.25", close := some "184.25" }),
        ("2024-01-02", { adjustedClose := some "185.64", close := some "185.64" }) ] }

/-- The value of `new Date(s + 'T00:00:00')` in UTC on the date strings of the scenarios;
an Invalid Date elsewhere. -/
def scenarioToDate (s : String) : JSDate :=
  if s = "2024-01-02" then some 1704153600000
  else if s = "2024-01-03" then some 1704240000000
  else if s = "2024-01-04" then some 1704326400000
  else none

/-- The value of `parseFloat` on the price strings of the scenarios; `NaN` elsewhere. -/
def scenarioParseFloat (s : Option String) : JSNum :=
  if s = some "185.64" then JSNum.num (18564 / 100)
  else if s = some "184.25" then JSNum.num (18425 / 100)
  else if s = some "181.91" then JSNum.num (18191 / 100)
  else JSNum.nan

/-- Three raw entries: one with an adjusted close, one whose only price is not a number,
one whose adjusted close is the empty string and whose close is a number. -/
def threeBarRaw : List (String × Bar) :=
  [ ("2024-01-03", { adjustedClose := some "184.25", close := some "184.25" }),
    ("2024-01-04", { adjustedClose := none, close := some "n/a" }),
    ("2024-01-02", { adjustedClose := some "", close := some "185.64" }) ]

/-- A raw input whose only bar has the close "0.0000". -/
def zeroBarRaw : List (String × Bar) :=
  [ ("2024-01-02", { adjustedClose := none, close := some "0.0000" }) ]

/-- The value of `parseFloat` on the price strings "0.0000" and "-1.50"; `NaN`
elsewhere. -/
def zeroParseFloat (s : Option String) : JSNum :=
  if s = some "0.0000" then JSNum.num 0
  else if s = some "-1.50" then JSNum.num (-3 / 2)
  else JSNum.nan

/-- A series whose index 7 is dated 2023-10-17, midnight UTC: 100 calendar days before
2024-01-25. Seven points precede it; the one point after it is newer than the window. -/
def seriesBoundary : List Entry :=
  [ { dateStr := "2023-10-06", date := some 1696550400000, close := JSNum.num 177 },
    { dateStr := "2023-10-09", date := some 1696809600000, close := JSNum.num 178 },
    { dateStr := "2023-10-10", date := some 1696896000000, close := JSNum.num 178 },
    { dateStr := "2023-10-11", date := some 1696982400000, close := JSNum.num 179 },
    { dateStr := "2023-10-12", date := some 1697068800000, close := JSNum.num 180 },
    { dateStr := "2023-10-13", date := some 1697155200000, close := JSNum.num 178 },
    { dateStr := "2023-10-16", date := some 1697414400000, close := JSNum.num 178 },
    { dateStr := "2023-10-17", date := some 1697500800000, close := JSNum.num 177 },
    { dateStr := "2024-01-24", date := some 1706054400000, close := JSNum.num 194 } ]

/-- The value of `new Date(s + 'T00:00:00')` in UTC on the date strings of `series10`; an
Invalid Date elsewhere. -/
def tableToDate (s : String) : JSDate :=
  (series10.find? (fun e => e.dateStr == s)).bind (fun e => e.date)

/-- The value of `parseFloat` on the price strings of `tenBarResponse`; `NaN`
elsewhere. -/
def tableParseFloat (s : Option String) : JSNum :=
  if s = some "181.00" then JSNum.num 181
  else if s = some "183.00" then JSNum.num 183
  else if s = some "184.00" then JSNum.num 184
  else if s = some "185.00" then JSNum.num 185
  else if s = some "186.00" then JSNum.num 186
  else JSNum.nan

/-- A response that carries the ten bars of `series10`, newest first. -/
def tenBarResponse : Response :=
  { ok := true
    status := 200
    statusText := "OK"
    errorMessage := none
    note := none
    timeSeries := some
      [ ("2024-01-15", { adjustedClose := some "183.00", close := some "183.00" }),
        ("2024-01-12", { adjustedClose := some "186.00", close := some "186.00" }),
        ("2024-01-11", { adjustedClose := some "185.00", close := some "185.00" }),
        ("2024-01-10", { adjustedClose := some "186.00", close := some "186.00" }),
        ("2024-01-09", { adjustedClose := some "185.00", close := some "185.00" }),
        ("2024-01-08", { adjustedClose := some "185.00", close := some "185.00" }),
        ("2024-01-05", { adjustedClose := some "181.00", close := some "181.00" }),
        ("2024-01-04", { adjustedClose := some "181.00", close := some "181.00" }),
        ("2024-01-03", { adjustedClose := some "184.00", close := some "184.00" }),
        ("2024-01-02", { adjustedClose := some "185.00", close := some "185.00" }) ] }

/-- The world after the page has loaded and "ibm" has been submitted at 2024-01-25 noon
with random value 0, the fetch delivering `tenBarResponse`. -/
def startedApp : App :=
  submitHandler tableToDate tableParseFloat exactProduct noon25Jan 0 "ibm" "demo"
    (Except.ok tenBarResponse) (initialApp blankDom)

/-- The world after a start on `series10` at 2024-01-25 noon with random value 0: the
game is at index 7, the first eligible index. -/
def startedAt7 : App :=
  (startGameWithData exactProduct noon25Jan 0 "ibm" "demo" series10 (initialApp blankDom)).1

/-! ## Lemmas on numbers -/

theorem JSNum.ltZero_not_gtZero (x : JSNum) (h : x.ltZero = true) : x.gtZero = false := by
  cases x <;> simp_all [JSNum.ltZero, JSNum.gtZero]
  exact le_of_lt h

theorem JSNum.gtZero_not_ltZero (x : JSNum) (h : x.gtZero = true) : x.ltZero = false := by
  cases x <;> simp_all [JSNum.ltZero, JSNum.gtZero]
  exact le_of_lt h

theorem JSNum.ltZero_not_isZero (x : JSNum) (h : x.ltZero = true) : x.isZero = false := by
  cases x <;> simp_all [JSNum.ltZero, JSNum.isZero]
  exact ne_of_lt h

theorem JSNum.gtZero_not_isZero (x : JSNum) (h : x.gtZero = true) : x.isZero = false := by
  cases x <;> simp_all [JSNum.gtZero, JSNum.isZero]
  exact ne_of_gt h

theorem JSNum.sub_self_of_isFinite (x : JSNum) (h : x.isFinite = true) :
    x.sub x = JSNum.num 0 := by
  cases x <;> simp_all [JSNum.isFinite, JSNum.sub]

/-! ## Lemmas on `handleGuess` -/

theorem lt_length_of_getElem? {α : Type} {l : List α} {i : Nat} {x : α}
    (h : l[i]? = some x) : i < l.length := by
  by_contra hge
  rw [List.getElem?_eq_none (by omega)] at h
  cases h

/-- The `state` after a scored guess. -/
theorem handleGuess_scored_state (direction : String) (a : App) (i : Nat) (cur next : Entry)
    (hprog : a.state.inProgress = true) (hidx : a.state.currentIndex = some i)
    (hcur : a.state.data[i]? = some cur) (hnext : a.state.data[i + 1]? = some next) :
    (handleGuess direction a).state =
      { a.state with
        score := a.state.score +
          (if guessIsCorrect direction (next.close.sub cur.close) then 1 else 0)
        chart := a.state.chart.map (fun c =>
          { labels := c.labels ++ [next.dateStr], data := c.data ++ [next.close] })
        currentIndex := some (i + 1) } := by
  have hlt : i + 1 < a.state.data.length := lt_length_of_getElem? hnext
  have hnot : ¬ (a.state.data.length ≤ i + 1) := by omega
  cases hch : a.state.chart <;>
  by_cases hu : direction = "up" <;> by_cases hd : direction = "down" <;>
  cases hg : (next.close.sub cur.close).gtZero <;>
  cases hl : (next.close.sub cur.close).ltZero <;>
  simp [handleGuess, guessIsCorrect, hprog, hidx, hcur, hnext, hnot, updateChart, hch, hu, hd,
    hg, hl]

/-- The DOM after a scored guess. -/
theorem handleGuess_scored_dom (direction : String) (a : App) (i : Nat) (cur next : Entry)
    (hprog : a.state.inProgress = true) (hidx : a.state.currentIndex = some i)
    (hcur : a.state.data[i]? = some cur) (hnext : a.state.data[i + 1]? = some next) :
    (handleGuess direction a).dom =
      { a.dom with
        feedback :=
          if guessIsCorrect direction (next.close.sub cur.close) then
            Feedback.correct next.dateStr next.close (next.close.sub cur.close)
          else
            Feedback.wrong
              (if (next.close.sub cur.close).isZero = true then "unchanged" else "incorrect")
              next.dateStr next.close (next.close.sub cur.close)
        score := a.state.score +
          (if guessIsCorrect direction (next.close.sub cur.close) then 1 else 0)
        currentDate := some next.dateStr } := by
  have hlt : i + 1 < a.state.data.length := lt_length_of_getElem? hnext
  have hnot : ¬ (a.state.data.length ≤ i + 1) := by omega
  cases hch : a.state.chart <;>
  by_cases hu : direction = "up" <;> by_cases hd : direction = "down" <;>
  cases hg : (next.close.sub cur.close).gtZero <;>
  cases hl : (next.close.sub cur.close).ltZero <;>
  simp [handleGuess, guessIsCorrect, hprog, hidx, hcur, hnext, hnot, updateChart, hch, hu, hd,
    hg, hl]

/-- A guess on a game that is not in progress does nothing. -/
theorem handleGuess_of_not_inProgress (direction : String) (a : App)
    (hprog : a.state.inProgress = false) : handleGuess direction a = a := by
  simp [handleGuess, hprog]

/-- A guess with no next point ends the game and touches nothing else in `state`. -/
theorem handleGuess_exhausted_state (direction : String) (a : App) (i : Nat)
    (hprog : a.state.inProgress = true) (hidx : a.state.currentIndex = some i)
    (hge : i + 1 ≥ a.state.data.length) :
    (handleGuess direction a).state = { a.state with inProgress := false } := by
  simp [handleGuess, hprog, hidx, hge]

/-! ## Scoring a guess -/

/-- C1. In an in-progress game whose reference point `cur = series[currentIndex]` has a
next point `next = series[currentIndex + 1]`, `handleGuess` raises the score by exactly 1
if and only if the guess is up with `delta > 0` or down with `delta < 0`, where
`delta = next.close - cur.close`; in every other case the score is unchanged. -/
theorem handleGuess_score_iff_correct (a : App) (direction : String) (i : Nat)
    (cur next : Entry)
    (hprog : a.state.inProgress = true) (hidx : a.state.currentIndex = some i)
    (hcur : a.state.data[i]? = some cur) (hnext : a.state.data[i + 1]? = some next) :
    ((handleGuess direction a).state.score = a.state.score + 1 ↔
        guessIsCorrect direction (next.close.sub cur.close)) ∧
    (¬ guessIsCorrect direction (next.close.sub cur.close) →
        (handleGuess direction a).state.score = a.state.score) := by
  rw [handleGuess_scored_state direction a i cur next hprog hidx hcur hnext]
  by_cases h : guessIsCorrect direction (next.close.sub cur.close) <;> simp [h]

/-- Scenarios 1 and 2: on closes 10, 10, 12, a guess up at index 1 gives score 1 and a
guess down at index 1 gives score 0. -/
theorem handleGuess_score_iff_correct_witness :
    (handleGuess "up" (gameAt series3 1 [])).state.score = 1 ∧
    (handleGuess "down" (gameAt series3 1 [])).state.score = 0 :=
  ⟨(handleGuess_score_iff_correct (gameAt series3 1 []) "up" 1
        { dateStr := "2024-01-03", date := some 1704240000000, close := JSNum.num 10 }
        { dateStr := "2024-01-04", date := some 1704326400000, close := JSNum.num 12 }
        rfl rfl rfl rfl).1.2 (by decide!),
   (handleGuess_score_iff_correct (gameAt series3 1 []) "down" 1
        { dateStr := "2024-01-03", date := some 1704240000000, close := JSNum.num 10 }
        { dateStr := "2024-01-04", date := some 1704326400000, close := JSNum.num 12 }
        rfl rfl rfl rfl).2 (by decide!)⟩

/-- C2. In an in-progress game with a next point, for a guess in either direction: when the next
close equals the (finite) current close, `delta` is 0, the reported verdict is
"unchanged" and the score is unchanged; when `delta` is non-zero of the wrong sign, the
reported verdict is "incorrect" and the score is unchanged; the two verdicts differ. -/
theorem handleGuess_unchanged_verdict (a : App) (direction : String) (i : Nat)
    (cur next : Entry)
    (hprog : a.state.inProgress = true) (hidx : a.state.currentIndex = some i)
    (hcur : a.state.data[i]? = some cur) (hnext : a.state.data[i + 1]? = some next) :
    (cur.close.isFinite = true → next.close = cur.close →
      next.close.sub cur.close = JSNum.num 0 ∧
      (handleGuess direction a).dom.feedback =
        Feedback.wrong "unchanged" next.dateStr next.close (JSNum.num 0) ∧
      (handleGuess direction a).state.score = a.state.score) ∧
    ((direction = "up" ∧ (next.close.sub cur.close).ltZero = true) ∨
        (direction = "down" ∧ (next.close.sub cur.close).gtZero = true) →
      (handleGuess direction a).dom.feedback =
        Feedback.wrong "incorrect" next.dateStr next.close (next.close.sub cur.close) ∧
      (handleGuess direction a).state.score = a.state.score) ∧
    Feedback.wrong "unchanged" next.dateStr next.close (next.close.sub cur.close) ≠
      Feedback.wrong "incorrect" next.dateStr next.close (next.close.sub cur.close) := by
  rw [handleGuess_scored_state direction a i cur next hprog hidx hcur hnext,
    handleGuess_scored_dom direction a i cur next hprog hidx hcur hnext]
  refine ⟨?_, ?_, ?_⟩
  · intro hfin heq
    have hz : next.close.sub cur.close = JSNum.num 0 := by
      rw [heq]
      exact JSNum.sub_self_of_isFinite cur.close hfin
    have hnc : ¬ guessIsCorrect direction (JSNum.num 0) := by
      simp [guessIsCorrect, JSNum.gtZero, JSNum.ltZero]
    simp [hz, hnc, JSNum.isZero]
  · intro hwrong
    have hnc : ¬ guessIsCorrect direction (next.close.sub cur.close) := by
      rcases hwrong with ⟨hu, hl⟩ | ⟨hd, hg⟩
      · simp [guessIsCorrect, hu, JSNum.ltZero_not_gtZero _ hl]
      · simp [guessIsCorrect, hd, JSNum.gtZero_not_ltZero _ hg]
    have hnz : (next.close.sub cur.close).isZero = false := by
      rcases hwrong with ⟨_, hl⟩ | ⟨_, hg⟩
      · exact JSNum.ltZero_not_isZero _ hl
      · exact JSNum.gtZero_not_isZero _ hg
    simp [hnc, hnz]
  · simp

/-- Scenario 3: on closes 10, 10 at index 0 a guess up is reported as "unchanged" and
the score stays 0; on closes 10, 10, 12 at index 1 a guess down is reported as
"incorrect". -/
theorem handleGuess_unchanged_verdict_witness :
    ((handleGuess "up" (gameAt series2 0 [])).dom.feedback =
        Feedback.wrong "unchanged" "2024-01-03" (JSNum.num 10) (JSNum.num 0) ∧
      (handleGuess "up" (gameAt series2 0 [])).state.score = 0) ∧
    (handleGuess "down" (gameAt series3 1 [])).dom.feedback =
        Feedback.wrong "incorrect" "2024-01-04" (JSNum.num 12)
          ((JSNum.num 12).sub (JSNum.num 10)) :=
  ⟨((handleGuess_unchanged_verdict (gameAt series2 0 []) "up" 0
        { dateStr := "2024-01-02", date := some 1704153600000, close := JSNum.num 10 }
        { dateStr := "2024-01-03", date := some 1704240000000, close := JSNum.num 10 }
        rfl rfl rfl rfl).1 rfl rfl).2,
   ((handleGuess_unchanged_verdict (gameAt series3 1 []) "down" 1
        { dateStr := "2024-01-03", date := some 1704240000000, close := JSNum.num 10 }
        { dateStr := "2024-01-04", date := some 1704326400000, close := JSNum.num 12 }
        rfl rfl rfl rfl).2.1 (Or.inr ⟨rfl, by decide!⟩)).1⟩

/-- C3. In an in-progress game with a chart and a next point `next`, whatever the
direction and whether or not the guess is correct, `handleGuess` sets `currentIndex` to
`currentIndex + 1`, appends exactly the one point `(next.dateStr, next.close)` to the
chart and leaves the series unchanged. -/
theorem handleGuess_advances (a : App) (direction : String) (i : Nat) (cur next : Entry)
    (c : Chart)
    (hprog : a.state.inProgress = true) (hidx : a.state.currentIndex = some i)
    (hcur : a.state.data[i]? = some cur) (hnext : a.state.data[i + 1]? = some next)
    (hchart : a.state.chart = some c) :
    (handleGuess direction a).state.currentIndex = some (i + 1) ∧
    (handleGuess direction a).state.chart =
      some { labels := c.labels ++ [next.dateStr], data := c.data ++ [next.close] } ∧
    (handleGuess direction a).state.data = a.state.data := by
  rw [handleGuess_scored_state direction a i cur next hprog hidx hcur hnext]
  simp [hchart]

/-- A wrong guess on closes 10, 10, 12 at index 1, with the first two points shown,
advances to index 2 and appends the third point to the chart. -/
theorem handleGuess_advances_witness :
    (handleGuess "down" (gameAt series3 1 (series3.take 2))).state.currentIndex = some 2 ∧
    (handleGuess "down" (gameAt series3 1 (series3.take 2))).state.chart =
      some { labels := ["2024-01-02", "2024-01-03"] ++ ["2024-01-04"],
             data := [JSNum.num 10, JSNum.num 10] ++ [JSNum.num 12] } ∧
    (handleGuess "down" (gameAt series3 1 (series3.take 2))).state.data = series3 :=
  handleGuess_advances (gameAt series3 1 (series3.take 2)) "down" 1
    { dateStr := "2024-01-03", date := some 1704240000000, close := JSNum.num 10 }
    { dateStr := "2024-01-04", date := some 1704326400000, close := JSNum.num 12 }
    { labels := ["2024-01-02", "2024-01-03"], data := [JSNum.num 10, JSNum.num 10] }
    rfl rfl rfl rfl rfl

/-- C4. In an in-progress game with `currentIndex + 1 ≥ series.length`, whatever the
direction, `handleGuess` ends the game (`inProgress` becomes false), reports that no
data is left, leaves score, `currentIndex` and the series unchanged and leaves the chart
as it was. -/
theorem handleGuess_exhausted (a : App) (direction : String) (i : Nat)
    (hprog : a.state.inProgress = true) (hidx : a.state.currentIndex = some i)
    (hge : i + 1 ≥ a.state.data.length) :
    (handleGuess direction a).state.inProgress = false ∧
    (handleGuess direction a).state.score = a.state.score ∧
    (handleGuess direction a).state.currentIndex = a.state.currentIndex ∧
    (handleGuess direction a).state.chart = a.state.chart ∧
    (handleGuess direction a).state.data = a.state.data ∧
    (handleGuess direction a).dom.feedback = Feedback.noMoreData := by
  rw [handleGuess_exhausted_state direction a i hprog hidx hge]
  simp [handleGuess, hprog, hidx, hge]

/-- Scenario 4: at the last index of closes 10, 10, 12 a guess ends the game and changes
neither score, index nor chart. -/
theorem handleGuess_exhausted_witness :
    (handleGuess "up" (gameAt series3 2 series3)).state.inProgress = false ∧
    (handleGuess "up" (gameAt series3 2 series3)).state.score = 0 ∧
    (handleGuess "up" (gameAt series3 2 series3)).state.currentIndex = some 2 ∧
    (handleGuess "up" (gameAt series3 2 series3)).state.chart =
      (gameAt series3 2 series3).state.chart ∧
    (handleGuess "up" (gameAt series3 2 series3)).state.data = series3 ∧
    (handleGuess "up" (gameAt series3 2 series3)).dom.feedback = Feedback.noMoreData :=
  handleGuess_exhausted (gameAt series3 2 series3) "up" 2 rfl rfl (by decide)

/-! ## The score over a sequence of guesses -/

theorem guesses_cons (d : String) (ds : List String) (a : App) :
    guesses (d :: ds) a = guesses ds (handleGuess d a) := rfl

theorem guesses_of_not_inProgress (dirs : List String) (a : App)
    (hprog : a.state.inProgress = false) : guesses dirs a = a := by
  induction dirs with
  | nil => rfl
  | cons d ds ih => rw [guesses_cons, handleGuess_of_not_inProgress d a hprog, ih]

theorem correctCount_of_exhausted (data : List Entry) (dirs : List String) :
    ∀ i, data.length ≤ i + 1 → correctCount data i dirs = 0 := by
  induction dirs with
  | nil => intro i _; rfl
  | cons d ds ih =>
    intro i hi
    have hnone : data[i + 1]? = none := List.getElem?_eq_none hi
    have hns : ¬ scoredCorrect data i d := by
      unfold scoredCorrect
      rw [hnone]
      cases data[i]? <;> simp
    simp [correctCount, hns, ih (i + 1) (by omega)]

/-- Over any guesses made one after the other in an in-progress game, the score grows by
the number of scored guesses that satisfy the correctness predicate. -/
theorem guesses_score (dirs : List String) :
    ∀ (a : App) (i : Nat), a.state.inProgress = true → a.state.currentIndex = some i →
      (guesses dirs a).state.score = a.state.score + correctCount a.state.data i dirs := by
  induction dirs with
  | nil => intro a i _ _; rfl
  | cons d ds ih =>
    intro a i hprog hidx
    rw [guesses_cons]
    by_cases hlt : i + 1 < a.state.data.length
    · have hcur : a.state.data[i]? = some (a.state.data[i]) := 
          List.getElem?_eq_getElem (by omega)
      have hnext : a.state.data[i + 1]? = some (a.state.data[i + 1]) :=
          List.getElem?_eq_getElem hlt
      have hst := handleGuess_scored_state d a i _ _ hprog hidx hcur hnext
      have h1 : (handleGuess d a).state.inProgress = true := by rw [hst]; exact hprog
      have h2 : (handleGuess d a).state.currentIndex = some (i + 1) := by rw [hst]
      have h3 : (handleGuess d a).state.data = a.state.data := by rw [hst]
      have h4 : (handleGuess d a).state.score = a.state.score +
          (if guessIsCorrect d ((a.state.data[i + 1]).close.sub (a.state.data[i]).close)
            then 1 else 0) := by rw [hst]
      have h5 : scoredCorrect a.state.data i d ↔
          guessIsCorrect d ((a.state.data[i + 1]).close.sub (a.state.data[i]).close) := by
        unfold scoredCorrect
        rw [hcur, hnext]
      rw [ih (handleGuess d a) (i + 1) h1 h2, h3, h4]
      simp only [correctCount, h5]
      omega
    · have hge : i + 1 ≥ a.state.data.length := by omega
      have hst := handleGuess_exhausted_state d a i hprog hidx hge
      have h1 : (handleGuess d a).state.inProgress = false := by rw [hst]
      have h4 : (handleGuess d a).state.score = a.state.score := by rw [hst]
      rw [guesses_of_not_inProgress ds _ h1, h4, correctCount_of_exhausted _ _ i hge]
      rfl

/-- No guess lowers the score, in any state. -/
theorem handleGuess_score_le (d : String) (a : App) :
    a.state.score ≤ (handleGuess d a).state.score := by
  cases hprog : a.state.inProgress
  · rw [handleGuess_of_not_inProgress d a hprog]
  · cases hidx : a.state.currentIndex with
    | some i =>
      by_cases hlt : i + 1 < a.state.data.length
      · have hcur : a.state.data[i]? = some (a.state.data[i]) := 
          List.getElem?_eq_getElem (by omega)
        have hnext : a.state.data[i + 1]? = some (a.state.data[i + 1]) :=
          List.getElem?_eq_getElem hlt
        rw [handleGuess_scored_state d a i _ _ hprog hidx hcur hnext]
        simp
      · rw [handleGuess_exhausted_state d a i hprog hidx (by omega)]
    | none =>
      by_cases hlt : 1 < a.state.data.length
      · have hnot : ¬ (a.state.data.length ≤ 1) := by omega
        simp [handleGuess, hprog, hidx, hnot]
      · have hge : a.state.data.length ≤ 1 := by omega
        simp [handleGuess, hprog, hidx, hge]

theorem guesses_take_succ (dirs : List String) (k : Nat) (a : App) :
    guesses (dirs.take (k + 1)) a = guesses (dirs.take k) a ∨
    ∃ d, guesses (dirs.take (k + 1)) a = handleGuess d (guesses (dirs.take k) a) := by
  rw [List.take_succ]
  cases hk : dirs[k]? with
  | none => left; simp
  | some d => right; exact ⟨d, by simp [guesses, List.foldl_append]⟩

/-- C5. In a game freshly started (in progress, score 0) at reference index `i`, for every
sequence of guess directions and every `k`, the score after the first `k` guesses is the
number of those guesses that were scored and satisfied the correctness predicate, and
the score after `k + 1` guesses is not smaller than the score after `k` guesses. -/
theorem score_counts_correct_guesses (a : App) (i : Nat) (dirs : List String) (k : Nat)
    (hprog : a.state.inProgress = true) (hidx : a.state.currentIndex = some i)
    (hscore : a.state.score = 0) :
    (guesses (dirs.take k) a).state.score = correctCount a.state.data i (dirs.take k) ∧
    (guesses (dirs.take k) a).state.score ≤ (guesses (dirs.take (k + 1)) a).state.score := by
  constructor
  · rw [guesses_score (dirs.take k) a i hprog hidx, hscore, Nat.zero_add]
  · rcases guesses_take_succ dirs k a with h | ⟨d, h⟩
    · rw [h]
    · rw [h]
      exact handleGuess_score_le d _

/-- On closes 10, 10, 12 from index 0, of the guesses up, up, down, up the first two
score 1 in total (the first sees no change, the second a rise). -/
theorem score_counts_correct_guesses_witness :
    (guesses (["up", "up", "down", "up"].take 2) (gameAt series3 0 [])).state.score =
        correctCount series3 0 (["up", "up", "down", "up"].take 2) ∧
    (guesses (["up", "up", "down", "up"].take 2) (gameAt series3 0 [])).state.score ≤
        (guesses (["up", "up", "down", "up"].take (2 + 1)) (gameAt series3 0 [])).state.score :=
  score_counts_correct_guesses (gameAt series3 0 []) 0 ["up", "up", "down", "up"] 2 rfl rfl rfl

/-! ## The start selector -/

theorem mem_eligibleIndices (entries : List Entry) (today : Int) (i : Nat) :
    i ∈ eligibleIndices entries (today - 100 * msPerDay) (today - 7 * msPerDay) ↔
      Eligible today entries i := by
  unfold eligibleIndices Eligible InWindow
  rw [List.mem_filter, List.mem_range]
  constructor
  · rintro ⟨hi, hc⟩
    rw [List.getElem?_eq_getElem hi] at hc
    cases hd : (entries[i]).date with
    | none => simp [hd, JSDate.ge] at hc
    | some t =>
      simp only [hd, JSDate.ge, JSDate.le, Bool.and_eq_true, decide_eq_true_eq] at hc
      exact ⟨⟨entries[i], t, List.getElem?_eq_getElem hi, hd, hc.1.1, hc.1.2⟩, hc.2.1, hc.2.2⟩
  · rintro ⟨⟨e, t, he, hd, hlo, hhi⟩, h7, hnext⟩
    have hi : i < entries.length := by omega
    refine ⟨hi, ?_⟩
    rw [he]
    simp only [hd, JSDate.ge, JSDate.le, Bool.and_eq_true, decide_eq_true_eq]
    exact ⟨⟨hlo, hhi⟩, h7, hnext⟩

theorem pickRandomStartIndex_mem (fmul : ℚ → ℚ → ℚ) (today : Int) (random : ℚ)
    (entries : List Entry) (i : Nat)
    (h : pickRandomStartIndex fmul today random entries = some i) :
    i ∈ eligibleIndices entries (today - 100 * msPerDay) (today - 7 * msPerDay) := by
  unfold pickRandomStartIndex at h
  simp only at h
  split_ifs at h
  exact List.getElem?_mem h

theorem pickRandomStartIndex_of_nil (fmul : ℚ → ℚ → ℚ) (today : Int) (random : ℚ)
    (entries : List Entry)
    (h : eligibleIndices entries (today - 100 * msPerDay) (today - 7 * msPerDay) = []) :
    pickRandomStartIndex fmul today random entries = none := by
  unfold pickRandomStartIndex
  simp [h]

/-- With at least one eligible index and a non-negative product, the result is the
lookup at the floor of the product `fmul random n` in the list of eligible indices. -/
theorem pickRandomStartIndex_eq_lookup (fmul : ℚ → ℚ → ℚ) (today : Int) (random : ℚ)
    (entries : List Entry)
    (h0 : 0 ≤ fmul random ((eligibleAt today entries).length : ℚ))
    (hne : eligibleAt today entries ≠ []) :
    pickRandomStartIndex fmul today random entries =
      (eligibleAt today entries)[(Int.floor
        (fmul random ((eligibleAt today entries).length : ℚ))).toNat]? := by
  have hpos : 0 < (eligibleAt today entries).length := List.length_pos.mpr hne
  have hlen : entries.length ≠ 0 := by
    intro hz
    apply hne
    unfold eligibleAt eligibleIndices
    simp [hz]
  have hfl0 : 0 ≤ Int.floor (fmul random ((eligibleAt today entries).length : ℚ)) :=
    Int.floor_nonneg.mpr h0
  unfold eligibleAt at hpos hfl0 ⊢
  unfold pickRandomStartIndex
  simp only [hlen, if_false, (Nat.pos_iff_ne_zero.mp hpos), not_lt.mpr hfl0]

theorem floor_toNat_lt (p : ℚ) (n : Nat) (h0 : 0 ≤ p) (h1 : p < (n : ℚ)) :
    (Int.floor p).toNat < n := by
  have hfl0 : 0 ≤ Int.floor p := Int.floor_nonneg.mpr h0
  have hfl1 : Int.floor p < (n : Int) := by
    rw [Int.floor_lt]
    exact_mod_cast h1
  omega

theorem pickRandomStartIndex_isSome (fmul : ℚ → ℚ → ℚ) (today : Int) (random : ℚ)
    (entries : List Entry)
    (h0 : 0 ≤ fmul random ((eligibleAt today entries).length : ℚ))
    (h1 : fmul random ((eligibleAt today entries).length : ℚ) <
      ((eligibleAt today entries).length : ℚ))
    (h : eligibleAt today entries ≠ []) :
    ∃ i, pickRandomStartIndex fmul today random entries = some i := by
  have hlt := floor_toNat_lt _ _ h0 h1
  exact ⟨(eligibleAt today entries).get ⟨_, hlt⟩, by
    rw [pickRandomStartIndex_eq_lookup fmul today random entries h0 h]
    exact List.getElem?_eq_getElem hlt⟩

theorem dayOf_sub_days (t : Int) (n : Int) : dayOf (t - n * msPerDay) = dayOf t - n := by
  unfold dayOf msPerDay
  omega

theorem dayOf_mono {s t : Int} (h : s ≤ t) : dayOf s ≤ dayOf t := by
  unfold dayOf msPerDay
  omega

/-- C6. Whatever the series, the reference time `today` and the value of the randomness
source, an index `i` returned by `pickRandomStartIndex` has `i - 7 ≥ 0`,
`i + 1 < series.length` and `today - 100 days ≤ series[i].date ≤ today - 7 days`, both as
time values and as calendar days. -/
theorem pickRandomStartIndex_bounds (fmul : ℚ → ℚ → ℚ) (today : Int) (random : ℚ)
    (entries : List Entry)
    (i : Nat) (h : pickRandomStartIndex fmul today random entries = some i) :
    (i : Int) - 7 ≥ 0 ∧ i + 1 < entries.length ∧
    ∃ e t, entries[i]? = some e ∧ e.date = some t ∧
      (today - 100 * msPerDay ≤ t ∧ t ≤ today - 7 * msPerDay) ∧
      (dayOf today - 100 ≤ dayOf t ∧ dayOf t ≤ dayOf today - 7) := by
  obtain ⟨⟨e, t, he, hd, hlo, hhi⟩, h7, hnext⟩ :=
    (mem_eligibleIndices entries today i).mp
      (pickRandomStartIndex_mem fmul today random entries i h)
  refine ⟨h7, hnext, e, t, he, hd, ⟨hlo, hhi⟩, ?_, ?_⟩
  · rw [← dayOf_sub_days]
    exact dayOf_mono hlo
  · rw [← dayOf_sub_days]
    exact dayOf_mono hhi

/-- On ten trading days up to 2024-01-15, seen from 2024-01-25 noon with random value
1/2, the start index is 8 (of the eligible 7 and 8) and meets the three bounds. -/
theorem pickRandomStartIndex_bounds_witness :
    pickRandomStartIndex exactProduct noon25Jan (1 / 2) series10 = some 8 ∧
    ((8 : Nat) : Int) - 7 ≥ 0 ∧ 8 + 1 < series10.length ∧
    ∃ e t, series10[8]? = some e ∧ e.date = some t ∧
      (noon25Jan - 100 * msPerDay ≤ t ∧ t ≤ noon25Jan - 7 * msPerDay) ∧
      (dayOf noon25Jan - 100 ≤ dayOf t ∧ dayOf t ≤ dayOf noon25Jan - 7) :=
  ⟨by decide!,
   pickRandomStartIndex_bounds exactProduct noon25Jan (1 / 2) series10 8 (by decide!)⟩

theorem eligibleAt_length_le (today : Int) (entries : List Entry) :
    (eligibleAt today entries).length ≤ entries.length := by
  unfold eligibleAt eligibleIndices
  exact le_trans (List.length_filter_le _ _) (le_of_eq (List.length_range _))

/-- C7 as stated fails: seen from 2024-01-25 noon, index 7 of `seriesBoundary` is dated
2023-10-17, inside the window of days from 100 to 7 days back, with 7 prior points and a
next point, yet the result is none. -/
theorem pickRandomStartIndex_none_although_day_eligible :
    ¬ (pickRandomStartIndex exactProduct noon25Jan (1 / 2) seriesBoundary = none ↔
        ¬ ∃ i, EligibleByDay noon25Jan seriesBoundary i) := by
  intro h
  have hnone : pickRandomStartIndex exactProduct noon25Jan (1 / 2) seriesBoundary = none := by
    decide!
  exact h.mp hnone
    ⟨7, ⟨{ dateStr := "2023-10-17", date := some 1697500800000, close := JSNum.num 177 },
      1697500800000, rfl, rfl, by decide, by decide⟩, by decide, by decide⟩

/-- C7, amended. Take the window on time values, from `today` minus 100 days to `today`
minus 7 days with the time of day of `today` kept. For a randomness value whose double
product with a positive count `n` up to the length of the series lies in `[0, n)`, as it
does for every value of `Math.random()`, `pickRandomStartIndex` returns none if and only
if no index is eligible
(date in that window, `i - 7 ≥ 0`, `i + 1 < series.length`); in particular it returns
none for the empty series and for a series in which every in-window date has fewer than
7 prior points. Every index eligible in this sense is eligible at day precision too. -/
theorem pickRandomStartIndex_none_iff (fmul : ℚ → ℚ → ℚ) (today : Int) (random : ℚ)
    (entries : List Entry)
    (hprod : ∀ n : Nat, 0 < n → n ≤ entries.length →
      0 ≤ fmul random (n : ℚ) ∧ fmul random (n : ℚ) < (n : ℚ)) :
    (pickRandomStartIndex fmul today random entries = none ↔
        ¬ ∃ i, Eligible today entries i) ∧
    pickRandomStartIndex fmul today random [] = none ∧
    ((∀ i, InWindow today entries i → i ≤ 6) →
        pickRandomStartIndex fmul today random entries = none) ∧
    (∀ i, Eligible today entries i → EligibleByDay today entries i) := by
  have hiff : pickRandomStartIndex fmul today random entries = none ↔
      ¬ ∃ i, Eligible today entries i := by
    constructor
    · intro hnone ⟨i, hi⟩
      have hne : eligibleAt today entries ≠ [] :=
        List.ne_nil_of_mem ((mem_eligibleIndices entries today i).mpr hi)
      have hp := hprod _ (List.length_pos.mpr hne) (eligibleAt_length_le today entries)
      obtain ⟨j, hj⟩ := pickRandomStartIndex_isSome fmul today random entries hp.1 hp.2 hne
      rw [hnone] at hj
      cases hj
    · intro hno
      apply pickRandomStartIndex_of_nil
      rw [List.eq_nil_iff_forall_not_mem]
      intro i hi
      exact hno ⟨i, (mem_eligibleIndices entries today i).mp hi⟩
  refine ⟨hiff, ?_, ?_, ?_⟩
  · simp [pickRandomStartIndex]
  · intro hsix
    rw [hiff]
    rintro ⟨i, hw, h7, _⟩
    have := hsix i hw
    omega
  · rintro i ⟨⟨e, t, he, hd, hlo, hhi⟩, h7, hnext⟩
    refine ⟨⟨e, t, he, hd, ?_, ?_⟩, h7, hnext⟩
    · rw [← dayOf_sub_days]
      exact dayOf_mono hlo
    · rw [← dayOf_sub_days]
      exact dayOf_mono hhi

/-- Scenario 5: seen from 2024-01-25 noon, the series whose only in-window date
(2024-01-10, index 6) has six prior points has no eligible index and no start. -/
theorem pickRandomStartIndex_none_iff_witness :
    (∀ n : Nat, 0 < n → n ≤ series8.length →
      0 ≤ exactProduct (1 / 2) (n : ℚ) ∧ exactProduct (1 / 2) (n : ℚ) < (n : ℚ)) ∧
    InWindow noon25Jan series8 6 ∧
    (¬ ∃ i, Eligible noon25Jan series8 i) ∧
    pickRandomStartIndex exactProduct noon25Jan (1 / 2) series8 = none :=
  have hprod : ∀ n : Nat, 0 < n → n ≤ series8.length →
      0 ≤ exactProduct (1 / 2) (n : ℚ) ∧ exactProduct (1 / 2) (n : ℚ) < (n : ℚ) := by
    intro n hn _
    have hq : (0 : ℚ) < (n : ℚ) := by exact_mod_cast hn
    unfold exactProduct
    constructor <;> linarith
  ⟨hprod,
   ⟨{ dateStr := "2024-01-10", date := some 1704844800000, close := JSNum.num 186 },
      1704844800000, rfl, rfl, by decide, by decide⟩,
   (pickRandomStartIndex_none_iff exactProduct noon25Jan (1 / 2) series8 hprod).1.mp
      (by decide!),
   by decide!⟩

/-! ## Starting a game -/

theorem slice_seed {α : Type} (l : List α) (s : Nat) (h7 : 7 ≤ s) (hs : s ≤ l.length) :
    slice l ((s : Int) - 7) s = (l.drop (s - 7)).take 7 := by
  unfold slice
  have h1 : ¬ ((s : Int) - 7 < 0) := by omega
  have h2 : ((s : Int) - 7).toNat = s - 7 := by omega
  simp only [h1, if_false, h2]
  have h3 : min (s - 7) l.length = s - 7 := by omega
  have h4 : min s l.length = s := by omega
  rw [h3, h4]
  congr 1
  omega

theorem seed_getElem? {α : Type} (l : List α) (s j : Nat) (h7 : 7 ≤ s) (hs : s ≤ l.length)
    (hj : j < 7) :
    ((l.drop (s - 7)).take 7)[j]? = some (l.get ⟨s - 7 + j, by omega⟩) := by
  rw [List.getElem?_take_of_lt hj, List.getElem?_drop]
  exact List.getElem?_eq_getElem (by omega)

theorem seed_length {α : Type} (l : List α) (s : Nat) (h7 : 7 ≤ s) (hs : s ≤ l.length) :
    ((l.drop (s - 7)).take 7).length = 7 := by
  rw [List.length_take, List.length_drop]
  omega

/-- The result of `startGameWithData` when a start index is picked. -/
theorem startGameWithData_of_some (fmul : ℚ → ℚ → ℚ) (today : Int) (random : ℚ)
    (symbol apiKey : String)
    (entries : List Entry) (a : App) (s : Nat)
    (hpick : pickRandomStartIndex fmul today random entries = some s) :
    ∃ shown, entries[s - 1]? = some shown ∧
      startGameWithData fmul today random symbol apiKey entries a =
        ({ state :=
            { symbol := some symbol.toUpper
              apiKey := some apiKey
              data := entries
              chart := some
                { labels := ((entries.drop (s - 7)).take 7).map (fun e => e.dateStr)
                  data := ((entries.drop (s - 7)).take 7).map (fun e => e.close) }
              currentIndex := some s
              score := 0
              inProgress := true }
           dom := { a.dom with
              statusTicker := some symbol.toUpper
              score := 0
              currentDate := some shown.dateStr
              instruction := Instruction.predict
              feedback := Feedback.empty
              guessUpDisabled := false
              guessDownDisabled := false
              endGameDisabled := false
              resetDisabled := false } }, none) := by
  obtain ⟨_, h7, hnext⟩ :=
    (mem_eligibleIndices entries today s).mp
      (pickRandomStartIndex_mem fmul today random entries s hpick)
  have hs0 : s ≠ 0 := by omega
  have hprev : entries[s - 1]? = some (entries.get ⟨s - 1, by omega⟩) :=
    List.getElem?_eq_getElem (by omega)
  refine ⟨_, hprev, ?_⟩
  unfold startGameWithData
  simp only [hpick, hs0, if_false, hprev, slice_seed entries s (by omega) (by omega), createChart]

/-- C8. When `pickRandomStartIndex` picks the index `s`, `startGameWithData` succeeds and
the resulting state has `currentIndex = s`, score 0 and `inProgress = true`; the chart is
seeded with exactly 7 points, the `j`-th of which (`j < 7`) is the date string and close
of `series[s - 7 + j]`, an index below `s`; with unique date strings, the date string of
`series[s]` is not among the labels. -/
theorem startGameWithData_seeds (fmul : ℚ → ℚ → ℚ) (today : Int) (random : ℚ)
    (symbol apiKey : String)
    (entries : List Entry) (a : App) (s : Nat)
    (hpick : pickRandomStartIndex fmul today random entries = some s) :
    (startGameWithData fmul today random symbol apiKey entries a).2 = none ∧
    (startGameWithData fmul today random symbol apiKey entries a).1.state.currentIndex = some s ∧
    (startGameWithData fmul today random symbol apiKey entries a).1.state.score = 0 ∧
    (startGameWithData fmul today random symbol apiKey entries a).1.state.inProgress = true ∧
    (startGameWithData fmul today random symbol apiKey entries a).1.state.data = entries ∧
    ∃ c, (startGameWithData fmul today random symbol apiKey entries a).1.state.chart = some c ∧
      c.labels.length = 7 ∧ c.data.length = 7 ∧
      (∀ j, j < 7 → s - 7 + j < s ∧ ∃ e, entries[s - 7 + j]? = some e ∧
        c.labels[j]? = some e.dateStr ∧ c.data[j]? = some e.close) ∧
      ((entries.map (fun e => e.dateStr)).Nodup →
        ∀ e, entries[s]? = some e → e.dateStr ∉ c.labels) := by
  obtain ⟨_, h7, hnext⟩ :=
    (mem_eligibleIndices entries today s).mp
      (pickRandomStartIndex_mem fmul today random entries s hpick)
  have h7n : 7 ≤ s := by omega
  have hsl : s ≤ entries.length := by omega
  obtain ⟨shown, _, heq⟩ :=
    startGameWithData_of_some fmul today random symbol apiKey entries a s hpick
  rw [heq]
  refine ⟨rfl, rfl, rfl, rfl, rfl, _, rfl, ?_, ?_, ?_, ?_⟩
  · rw [List.length_map]
    exact seed_length entries s h7n hsl
  · rw [List.length_map]
    exact seed_length entries s h7n hsl
  · intro j hj
    refine ⟨by omega, entries.get ⟨s - 7 + j, by omega⟩, List.getElem?_eq_getElem (by omega), ?_, ?_⟩
    · simp only [List.getElem?_map, seed_getElem? entries s j h7n hsl hj, Option.map_some']
    · simp only [List.getElem?_map, seed_getElem? entries s j h7n hsl hj, Option.map_some']
  · intro hnd e he hmem
    simp only at hmem
    obtain ⟨j, hj⟩ := List.mem_iff_getElem?.mp hmem
    have hj7 : j < 7 := by
      have := lt_length_of_getElem? hj
      rw [List.length_map, seed_length entries s h7n hsl] at this
      exact this
    rw [List.getElem?_map, seed_getElem? entries s j h7n hsl hj7] at hj
    simp only [Option.map_some', Option.some.injEq] at hj
    have hs : s < entries.length := by omega
    have he2 : e = entries[s] := by
      rw [List.getElem?_eq_getElem hs] at he
      exact (Option.some.inj he).symm
    have hlen : (entries.map (fun e => e.dateStr)).length = entries.length := List.length_map _ _
    have h1 : (entries.map (fun e => e.dateStr))[s - 7 + j]? = some e.dateStr := by
      rw [List.getElem?_map, List.getElem?_eq_getElem (by omega)]
      simpa using hj
    have h2 : (entries.map (fun e => e.dateStr))[s]? = some e.dateStr := by
      rw [List.getElem?_map, he]
      rfl
    have hinj := (List.nodup_iff_getElem?_ne_getElem?.mp hnd) (s - 7 + j) s (by omega)
      (by rw [hlen]; exact hs)
    exact hinj (h1.trans h2.symm)

/-- On ten trading days up to 2024-01-15 with start index 8, the game is in progress at
index 8 with score 0 and the chart shows the 7 days 2024-01-03 to 2024-01-11. -/
theorem startGameWithData_seeds_witness :
    pickRandomStartIndex exactProduct noon25Jan (1 / 2) series10 = some 8 ∧
    (startGameWithData exactProduct noon25Jan (1 / 2) "ibm" "demo" series10
      (initialApp blankDom)).1.state.chart
      = some { labels := ["2024-01-03", "2024-01-04", "2024-01-05", "2024-01-08", "2024-01-09",
                  "2024-01-10", "2024-01-11"],
               data := [JSNum.num 184, JSNum.num 181, JSNum.num 181, JSNum.num 185,
                  JSNum.num 185, JSNum.num 186, JSNum.num 185] } ∧
    (startGameWithData exactProduct noon25Jan (1 / 2) "ibm" "demo" series10
      (initialApp blankDom)).1.state.currentIndex = some 8 :=
  ⟨by decide!, by decide!,
   (startGameWithData_seeds exactProduct noon25Jan (1 / 2) "ibm" "demo" series10
      (initialApp blankDom) 8
      (by decide!)).2.1⟩

/-! ## A start that fails -/

theorem pickRandomStartIndex_of_not_eligible (fmul : ℚ → ℚ → ℚ) (today : Int) (random : ℚ)
    (entries : List Entry)
    (hno : ¬ ∃ i, Eligible today entries i) :
    pickRandomStartIndex fmul today random entries = none := by
  apply pickRandomStartIndex_of_nil
  rw [List.eq_nil_iff_forall_not_mem]
  intro i hi
  exact hno ⟨i, (mem_eligibleIndices entries today i).mp hi⟩

theorem startGameWithData_of_none (fmul : ℚ → ℚ → ℚ) (today : Int) (random : ℚ)
    (symbol apiKey : String)
    (entries : List Entry) (a : App)
    (hpick : pickRandomStartIndex fmul today random entries = none) :
    startGameWithData fmul today random symbol apiKey entries a = (a, some notEnoughData) := by
  unfold startGameWithData
  simp only [hpick]

/-- C9. When no eligible start index exists, `startGameWithData` throws its error and
returns the world exactly as it was (no field of `state` changes, the chart is not
seeded); and since the submit handler resets before it starts, after a submit whose
fetch delivered such a series the state is the idle state, with the error shown. -/
theorem startGameWithData_no_start (fmul : ℚ → ℚ → ℚ) (today : Int) (random : ℚ)
    (entries : List Entry)
    (hno : ¬ ∃ i, Eligible today entries i) :
    (∀ (symbol apiKey : String) (a : App),
      startGameWithData fmul today random symbol apiKey entries a = (a, some notEnoughData)) ∧
    (∀ (toDate : String → JSDate) (parseFloat : Option String → JSNum)
        (tickerValue apiKeyValue : String) (fetched : Except String Response) (a : App),
      fetched.bind (fetchTimeSeriesDailyAdjusted toDate parseFloat) = Except.ok entries →
      (submitHandler toDate parseFloat fmul today random tickerValue apiKeyValue fetched a).state =
        idleState ∧
      (submitHandler toDate parseFloat fmul today random tickerValue apiKeyValue fetched
        a).dom.errorHidden = false ∧
      (tickerValue.trim ≠ "" → apiKeyValue.trim ≠ "" →
        (submitHandler toDate parseFloat fmul today random tickerValue apiKeyValue fetched
          a).dom.errorText = notEnoughData)) := by
  have hpick := pickRandomStartIndex_of_not_eligible fmul today random entries hno
  refine ⟨fun symbol apiKey a =>
    startGameWithData_of_none fmul today random symbol apiKey entries a hpick, ?_⟩
  intro toDate parseFloat tickerValue apiKeyValue fetched a hfetch
  have hmsg : errorMessageOf notEnoughData = notEnoughData := by decide
  by_cases ht : tickerValue.trim = ""
  · simp [submitHandler, ht, showError, resetUI, idleState]
  · by_cases hk : apiKeyValue.trim = ""
    · simp [submitHandler, ht, hk, showError, resetUI, idleState]
    · simp [submitHandler, ht, hk, hfetch, startGameWithData_of_none _ _ _ _ _ _ _ hpick, hmsg,
        showError, setLoading, resetUI, clearError, idleState]

/-- A submit for "ibm" whose fetch delivers two bars only: no index is eligible, the
start fails, and the state after the handler is the idle state with the error shown. -/
theorem startGameWithData_no_start_witness :
    (¬ ∃ i, Eligible noon25Jan (parseTimeSeries scenarioToDate scenarioParseFloat
        twoBarResponse.timeSeries) i) ∧
    (submitHandler scenarioToDate scenarioParseFloat exactProduct noon25Jan (1 / 2) " ibm " "demo"
        (Except.ok twoBarResponse) (gameAt series3 1 [])).state = idleState ∧
    (submitHandler scenarioToDate scenarioParseFloat exactProduct noon25Jan (1 / 2) " ibm " "demo"
        (Except.ok twoBarResponse) (gameAt series3 1 [])).dom.errorText = notEnoughData :=
  have hlen : (parseTimeSeries scenarioToDate scenarioParseFloat
      twoBarResponse.timeSeries).length = 2 := by decide!
  have hno : ¬ ∃ i, Eligible noon25Jan (parseTimeSeries scenarioToDate scenarioParseFloat
      twoBarResponse.timeSeries) i := by
    rintro ⟨i, _, h7, hlt⟩
    omega
  have hfetch : (Except.ok twoBarResponse : Except String Response).bind
      (fetchTimeSeriesDailyAdjusted scenarioToDate scenarioParseFloat) =
      Except.ok (parseTimeSeries scenarioToDate scenarioParseFloat
        twoBarResponse.timeSeries) := by
    show fetchTimeSeriesDailyAdjusted scenarioToDate scenarioParseFloat twoBarResponse = _
    unfold fetchTimeSeriesDailyAdjusted
    simp [hlen]
    simp [twoBarResponse]
  ⟨hno,
   (((startGameWithData_no_start exactProduct noon25Jan (1 / 2) _ hno).2 scenarioToDate scenarioParseFloat
      " ibm " "demo" (Except.ok twoBarResponse) (gameAt series3 1 [])) hfetch).1,
   (((startGameWithData_no_start exactProduct noon25Jan (1 / 2) _ hno).2 scenarioToDate scenarioParseFloat
      " ibm " "demo" (Except.ok twoBarResponse) (gameAt series3 1 [])) hfetch).2.2
      (by decide!) (by decide!)⟩

/-! ## The series normaliser -/

theorem sortLE_iff {a b : Entry} {ta tb : Int} (ha : a.date = some ta) (hb : b.date = some tb) :
    sortLE a b = true ↔ ta ≤ tb := by
  unfold sortLE compareDates
  rw [ha, hb]
  simp

/-- Inserting an entry with a valid date into a sorted list of entries with valid dates
keeps it sorted. -/
theorem sorted_orderedInsert_of_valid (a : Entry) (ta : Int) (ha : a.date = some ta) :
    ∀ l : List Entry, (∀ x ∈ l, ∃ t, x.date = some t) →
      l.Pairwise (fun x y => sortLE x y = true) →
      (l.orderedInsert (fun x y => sortLE x y = true) a).Pairwise
        (fun x y => sortLE x y = true) := by
  intro l
  induction l with
  | nil => intro _ _; simp
  | cons b l ih =>
    intro hv hs
    obtain ⟨tb, hb⟩ := hv b (List.mem_cons_self b l)
    have hvl : ∀ x ∈ l, ∃ t, x.date = some t := fun x hx => hv x (List.mem_cons_of_mem b hx)
    rw [List.pairwise_cons] at hs
    rw [List.orderedInsert]
    by_cases hab : sortLE a b = true
    · rw [if_pos hab]
      rw [List.pairwise_cons]
      refine ⟨?_, List.pairwise_cons.mpr hs⟩
      intro x hx
      rcases List.mem_cons.mp hx with rfl | hxl
      · exact hab
      · obtain ⟨tx, hxd⟩ := hvl x hxl
        have h1 := (sortLE_iff ha hb).mp hab
        have h2 := (sortLE_iff hb hxd).mp (hs.1 x hxl)
        exact (sortLE_iff ha hxd).mpr (le_trans h1 h2)
    · rw [if_neg hab]
      rw [List.pairwise_cons]
      refine ⟨?_, ih hvl hs.2⟩
      intro x hx
      rcases (List.mem_orderedInsert _).mp hx with rfl | hxl
      · have h1 : ¬ ta ≤ tb := fun h => hab ((sortLE_iff ha hb).mpr h)
        exact (sortLE_iff hb ha).mpr (by omega)
      · exact hs.1 x hxl

/-- The `sort` of entries with valid dates is sorted by date. -/
theorem sortByDate_sorted_of_valid :
    ∀ l : List Entry, (∀ x ∈ l, ∃ t, x.date = some t) →
      (sortByDate l).Pairwise (fun x y => sortLE x y = true) := by
  intro l
  induction l with
  | nil => intro _; simp [sortByDate]
  | cons a l ih =>
    intro hv
    obtain ⟨ta, ha⟩ := hv a (List.mem_cons_self a l)
    have hvl : ∀ x ∈ l, ∃ t, x.date = some t := fun x hx => hv x (List.mem_cons_of_mem a hx)
    have hvs : ∀ x ∈ sortByDate l, ∃ t, x.date = some t := fun x hx =>
      hvl x ((List.mem_insertionSort _).mp hx)
    exact sorted_orderedInsert_of_valid a ta ha (sortByDate l) hvs (ih hvl)

theorem sortByDate_perm (l : List Entry) : (sortByDate l).Perm l :=
  List.perm_insertionSort _ l

/-- C10. For a raw input that is a mapping (no key twice) from date strings to price bars,
every key denoting a valid date and distinct keys denoting distinct dates, the sequence
returned by `parseTimeSeries` is strictly ascending by date: for positions `i < j` the
date of `output[i]` is before the date of `output[j]`, so no two points have equal
dates. -/
theorem parseTimeSeries_strictly_ascending (toDate : String → JSDate)
    (parseFloat : Option String → JSNum) (raw : List (String × Bar))
    (hkeys : (raw.map (fun p => p.1)).Nodup)
    (hvalid : ∀ p ∈ raw, (toDate p.1).isSome = true)
    (hinj : ∀ p ∈ raw, ∀ q ∈ raw, toDate p.1 = toDate q.1 → p.1 = q.1) :
    ∀ (i j : Nat) (x y : Entry), i < j →
      (parseTimeSeries toDate parseFloat (some raw))[i]? = some x →
      (parseTimeSeries toDate parseFloat (some raw))[j]? = some y →
      dateLT x y ∧ x.date ≠ y.date := by
  have hraw : raw.Pairwise (fun p q => toDate p.1 ≠ toDate q.1) := by
    have h0 : raw.Pairwise (fun p q => p.1 ≠ q.1) := List.pairwise_map.mp hkeys
    exact h0.imp_of_mem (fun hp hq hne heq => hne (hinj _ hp _ hq heq))
  have hmapped : (raw.map (fun p =>
      ({ dateStr := p.1, date := toDate p.1, close := parseFloat p.2.priceField } :
        Entry))).Pairwise (fun x y => x.date ≠ y.date) :=
    List.pairwise_map.mpr hraw
  have hfiltered := hmapped.filter (fun p => p.close.isFinite)
  have hvalidF : ∀ x ∈ (raw.map (fun p =>
      ({ dateStr := p.1, date := toDate p.1, close := parseFloat p.2.priceField } :
        Entry))).filter (fun p => p.close.isFinite), ∃ t, x.date = some t := by
    intro x hx
    obtain ⟨p, hp, rfl⟩ := List.mem_map.mp (List.mem_filter.mp hx).1
    exact Option.isSome_iff_exists.mp (hvalid p hp)
  have hsorted := sortByDate_sorted_of_valid _ hvalidF
  have hperm := sortByDate_perm ((raw.map (fun p =>
      ({ dateStr := p.1, date := toDate p.1, close := parseFloat p.2.priceField } :
        Entry))).filter (fun p => p.close.isFinite))
  have hne := (hperm.pairwise_iff (fun {x y} (h : x.date ≠ y.date) => h.symm)).mpr hfiltered
  have hboth := (hsorted.and hne).imp_of_mem (S := fun x y => dateLT x y ∧ x.date ≠ y.date)
    (fun {x y} hx hy h => by
      obtain ⟨tx, hxd⟩ := hvalidF x (hperm.mem_iff.mp hx)
      obtain ⟨ty, hyd⟩ := hvalidF y (hperm.mem_iff.mp hy)
      have hle := (sortLE_iff hxd hyd).mp h.1
      have hneq : tx ≠ ty := fun heq => h.2 (by rw [hxd, hyd, heq])
      exact ⟨⟨tx, ty, hxd, hyd, lt_of_le_of_ne hle hneq⟩, h.2⟩)
  intro i j x y hij hx hy
  have hi := lt_length_of_getElem? hx
  have hj := lt_length_of_getElem? hy
  have h := (List.pairwise_iff_getElem.mp hboth) i j hi hj hij
  rw [List.getElem?_eq_getElem hi] at hx
  rw [List.getElem?_eq_getElem hj] at hy
  rw [← Option.some.inj hx, ← Option.some.inj hy]
  exact h

/-- The two bars of 2024-01-03 and 2024-01-02, delivered newest first, come out with
2024-01-02 before 2024-01-03. -/
theorem parseTimeSeries_strictly_ascending_witness :
    parseTimeSeries scenarioToDate scenarioParseFloat twoBarResponse.timeSeries =
      [ { dateStr := "2024-01-02", date := some 1704153600000,
          close := JSNum.num (18564 / 100) },
        { dateStr := "2024-01-03", date := some 1704240000000,
          close := JSNum.num (18425 / 100) } ] ∧
    dateLT
      { dateStr := "2024-01-02", date := some 1704153600000, close := JSNum.num (18564 / 100) }
      { dateStr := "2024-01-03", date := some 1704240000000, close := JSNum.num (18425 / 100) } :=
  ⟨by decide!,
   (parseTimeSeries_strictly_ascending scenarioToDate scenarioParseFloat
      [ ("2024-01-03", { adjustedClose := some "184.25", close := some "184.25" }),
        ("2024-01-02", { adjustedClose := some "185.64", close := some "185.64" }) ]
      (by decide) (by decide) (by decide) 0 1 _ _ (by decide) (by decide!) (by decide!)).1⟩

/-! ## Reachable worlds -/

/-- The state after the submit handler is either the idle state or that of a game just
started at a picked index. -/
theorem submitHandler_state (toDate : String → JSDate) (parseFloat : Option String → JSNum)
    (fmul : ℚ → ℚ → ℚ) (today : Int) (random : ℚ) (tickerValue apiKeyValue : String)
    (fetched : Except String Response) (a : App) :
    (submitHandler toDate parseFloat fmul today random tickerValue apiKeyValue fetched a).state =
        idleState ∨
    ∃ entries s, pickRandomStartIndex fmul today random entries = some s ∧
      (submitHandler toDate parseFloat fmul today random tickerValue apiKeyValue fetched a).state =
        { symbol := some tickerValue.trim.toUpper
          apiKey := some apiKeyValue.trim
          data := entries
          chart := some
            { labels := ((entries.drop (s - 7)).take 7).map (fun e => e.dateStr)
              data := ((entries.drop (s - 7)).take 7).map (fun e => e.close) }
          currentIndex := some s
          score := 0
          inProgress := true } := by
  by_cases ht : tickerValue.trim = ""
  · left
    simp [submitHandler, ht, showError, resetUI, idleState]
  · by_cases hk : apiKeyValue.trim = ""
    · left
      simp [submitHandler, ht, hk, showError, resetUI, idleState]
    · cases hf : fetched.bind (fetchTimeSeriesDailyAdjusted toDate parseFloat) with
      | error msg =>
        left
        simp [submitHandler, ht, hk, hf, showError, setLoading, resetUI, clearError, idleState]
      | ok entries =>
        cases hp : pickRandomStartIndex fmul today random entries with
        | none =>
          left
          simp [submitHandler, ht, hk, hf, startGameWithData_of_none _ _ _ _ _ _ _ hp,
            showError, setLoading, resetUI, clearError, idleState]
        | some s =>
          right
          refine ⟨entries, s, hp, ?_⟩
          obtain ⟨shown, _, heq⟩ := startGameWithData_of_some fmul today random tickerValue.trim
            apiKeyValue.trim entries (setLoading true (resetUI (clearError a))) s hp
          simp only [submitHandler, ht, hk, hf, heq, if_false]
          rfl

/-- In every reachable world with a game in progress there is a chart, and
`currentIndex` is an index of the series with at least 7 points before it. -/
theorem Reachable.inProgress_inv {toDate : String → JSDate}
    {parseFloat : Option String → JSNum} {fmul : ℚ → ℚ → ℚ} {a : App}
    (h : Reachable toDate parseFloat fmul a) :
    a.state.inProgress = true →
      (∃ c, a.state.chart = some c) ∧
      ∃ i, a.state.currentIndex = some i ∧ 7 ≤ i ∧ i < a.state.data.length := by
  have hguess : ∀ (d : String) (b : App),
      (b.state.inProgress = true →
        (∃ c, b.state.chart = some c) ∧
        ∃ i, b.state.currentIndex = some i ∧ 7 ≤ i ∧ i < b.state.data.length) →
      (handleGuess d b).state.inProgress = true →
        (∃ c, (handleGuess d b).state.chart = some c) ∧
        ∃ i, (handleGuess d b).state.currentIndex = some i ∧ 7 ≤ i ∧
          i < (handleGuess d b).state.data.length := by
    intro d b ih hprog
    cases hb : b.state.inProgress with
    | false =>
      rw [handleGuess_of_not_inProgress d b hb] at hprog
      rw [hb] at hprog
      cases hprog
    | true =>
      obtain ⟨⟨c, hc⟩, i, hi, h7, hlt⟩ := ih hb
      by_cases hnext : i + 1 < b.state.data.length
      · rw [handleGuess_scored_state d b i _ _ hb hi (List.getElem?_eq_getElem hlt)
          (List.getElem?_eq_getElem hnext)]
        refine ⟨⟨{ labels := c.labels ++ [(b.state.data[i + 1]).dateStr],
                   data := c.data ++ [(b.state.data[i + 1]).close] }, ?_⟩,
          i + 1, rfl, by omega, hnext⟩
        simp only [hc, Option.map_some']
      · rw [handleGuess_exhausted_state d b i hb hi (by omega)] at hprog
        cases hprog
  induction h with
  | init dom => intro hp; cases hp
  | submit today random tickerValue apiKeyValue fetched a _ _ =>
    intro hp
    rcases submitHandler_state toDate parseFloat fmul today random tickerValue apiKeyValue fetched a
      with hidle | ⟨entries, s, hpick, hst⟩
    · rw [hidle] at hp
      cases hp
    · obtain ⟨_, h7, hnext⟩ := (mem_eligibleIndices entries today s).mp
        (pickRandomStartIndex_mem fmul today random entries s hpick)
      rw [hst]
      exact ⟨⟨_, rfl⟩, s, rfl, by omega, by simp only; omega⟩
  | guessUp a _ ih => exact hguess "up" a ih
  | guessDown a _ ih => exact hguess "down" a ih
  | stop a _ _ => intro hp; cases hp
  | reset a _ _ => intro hp; cases hp

/-! ## What the normaliser keeps -/

theorem parseTimeSeries_some (toDate : String → JSDate) (parseFloat : Option String → JSNum)
    (raw : List (String × Bar)) :
    parseTimeSeries toDate parseFloat (some raw) =
      sortByDate ((raw.filter (fun p => (parseFloat p.2.priceField).isFinite)).map
        (rawPoint toDate parseFloat)) := by
  unfold parseTimeSeries
  simp only [List.filter_map]
  rfl

theorem parseTimeSeries_perm (toDate : String → JSDate) (parseFloat : Option String → JSNum)
    (raw : List (String × Bar)) :
    (parseTimeSeries toDate parseFloat (some raw)).Perm
      ((raw.filter (fun p => (parseFloat p.2.priceField).isFinite)).map
        (rawPoint toDate parseFloat)) := by
  rw [parseTimeSeries_some]
  exact sortByDate_perm _

theorem mem_parseTimeSeries (toDate : String → JSDate) (parseFloat : Option String → JSNum)
    (raw : List (String × Bar)) (e : Entry) :
    e ∈ parseTimeSeries toDate parseFloat (some raw) ↔
      ∃ p ∈ raw, (parseFloat p.2.priceField).isFinite = true ∧
        e = rawPoint toDate parseFloat p := by
  rw [(parseTimeSeries_perm toDate parseFloat raw).mem_iff, List.mem_map]
  constructor
  · rintro ⟨p, hp, rfl⟩
    exact ⟨p, (List.mem_filter.mp hp).1, (List.mem_filter.mp hp).2, rfl⟩
  · rintro ⟨p, hp, hfin, rfl⟩
    exact ⟨p, List.mem_filter.mpr ⟨hp, hfin⟩, rfl⟩

/-- C11. The points returned by `parseTimeSeries` are exactly the input entries whose
chosen price field parses to a finite number: the output is a rearrangement of the list
that holds, for each such entry and in input order, the one point with its date string and
parsed close, so each such entry yields exactly one point and no other entry yields any;
the result is empty when the time-series field is absent or not an object, and when no
entry has a finite price. -/
theorem parseTimeSeries_keeps_finite (toDate : String → JSDate)
    (parseFloat : Option String → JSNum) :
    parseTimeSeries toDate parseFloat none = [] ∧
    ∀ raw : List (String × Bar),
      (parseTimeSeries toDate parseFloat (some raw)).Perm
        ((raw.filter (fun p => (parseFloat p.2.priceField).isFinite)).map
          (rawPoint toDate parseFloat)) ∧
      (∀ e, e ∈ parseTimeSeries toDate parseFloat (some raw) ↔
        ∃ p ∈ raw, (parseFloat p.2.priceField).isFinite = true ∧
          e = rawPoint toDate parseFloat p) ∧
      (parseTimeSeries toDate parseFloat (some raw)).length =
        (raw.filter (fun p => (parseFloat p.2.priceField).isFinite)).length ∧
      ((∀ p ∈ raw, (parseFloat p.2.priceField).isFinite = false) →
        parseTimeSeries toDate parseFloat (some raw) = []) := by
  refine ⟨rfl, fun raw => ⟨parseTimeSeries_perm toDate parseFloat raw,
    mem_parseTimeSeries toDate parseFloat raw, ?_, ?_⟩⟩
  · rw [(parseTimeSeries_perm toDate parseFloat raw).length_eq, List.length_map]
  · intro hnone
    rw [List.eq_nil_iff_forall_not_mem]
    intro e he
    obtain ⟨p, hp, hfin, _⟩ := (mem_parseTimeSeries toDate parseFloat raw e).mp he
    rw [hnone p hp] at hfin
    cases hfin

/-- Of three raw entries, the one whose price is "n/a" is dropped; the other two come out
once each, the second with the close taken because its adjusted close is empty. -/
theorem parseTimeSeries_keeps_finite_witness :
    parseTimeSeries scenarioToDate scenarioParseFloat (some threeBarRaw) =
      [ { dateStr := "2024-01-02", date := some 1704153600000,
          close := JSNum.num (18564 / 100) },
        { dateStr := "2024-01-03", date := some 1704240000000,
          close := JSNum.num (18425 / 100) } ] ∧
    (parseTimeSeries scenarioToDate scenarioParseFloat (some threeBarRaw)).length =
      (threeBarRaw.filter (fun p => (scenarioParseFloat p.2.priceField).isFinite)).length :=
  ⟨by decide!,
   ((parseTimeSeries_keeps_finite scenarioToDate scenarioParseFloat).2 threeBarRaw).2.2.1⟩

/-- C12 as stated fails: the bar with close "0.0000" yields a point whose close is 0,
which is finite but not strictly positive. -/
theorem parseTimeSeries_close_not_positive :
    ∃ e ∈ parseTimeSeries scenarioToDate zeroParseFloat (some zeroBarRaw),
      ¬ (e.close.isFinite = true ∧ e.close.gtZero = true) :=
  ⟨{ dateStr := "2024-01-02", date := some 1704153600000, close := JSNum.num 0 },
   by decide!, by decide!⟩

/-- C12, amended. Every point in the series returned by `parseTimeSeries` has a close that
is a finite number, namely the parsed chosen price field of its input entry; it is
strictly positive when every finite parsed price of the input is. -/
theorem parseTimeSeries_close_finite (toDate : String → JSDate)
    (parseFloat : Option String → JSNum) (series : Option (List (String × Bar)))
    (e : Entry) (he : e ∈ parseTimeSeries toDate parseFloat series) :
    e.close.isFinite = true ∧
    (∃ raw p, series = some raw ∧ p ∈ raw ∧ e.close = parseFloat p.2.priceField) ∧
    ((∀ raw, series = some raw → ∀ p ∈ raw, (parseFloat p.2.priceField).isFinite = true →
        (parseFloat p.2.priceField).gtZero = true) → e.close.gtZero = true) := by
  cases series with
  | none => simp [parseTimeSeries] at he
  | some raw =>
    obtain ⟨p, hp, hfin, rfl⟩ := (mem_parseTimeSeries toDate parseFloat raw e).mp he
    exact ⟨hfin, ⟨raw, p, rfl, hp, rfl⟩, fun hpos => hpos raw rfl p hp hfin⟩

/-- The point of 2024-01-02 in the series of three raw entries has the finite close
185.64. -/
theorem parseTimeSeries_close_finite_witness :
    ({ dateStr := "2024-01-02", date := some 1704153600000,
       close := JSNum.num (18564 / 100) } : Entry) ∈
      parseTimeSeries scenarioToDate scenarioParseFloat (some threeBarRaw) ∧
    (JSNum.num (18564 / 100)).isFinite = true :=
  ⟨by decide!,
   (parseTimeSeries_close_finite scenarioToDate scenarioParseFloat (some threeBarRaw)
    { dateStr := "2024-01-02", date := some 1704153600000, close := JSNum.num (18564 / 100) }
    (by decide!)).1⟩

/-! ## Phases and the index invariant -/

/-- The state after `endGame`. -/
theorem endGame_state (a : App) :
    (endGame a).state = { a.state with inProgress := false } := rfl

theorem state_eq_of_not_inProgress (s : State) (h : s.inProgress = false) :
    { s with inProgress := false } = s := by
  cases s
  simp_all

/-- In every reachable world the state is the idle state, or a game has been started
and `currentIndex` is an index of the series. -/
theorem Reachable.index_inv {toDate : String → JSDate}
    {parseFloat : Option String → JSNum} {fmul : ℚ → ℚ → ℚ} {a : App}
    (h : Reachable toDate parseFloat fmul a) :
    a.state = idleState ∨
      (a.state.symbol.isSome = true ∧
        ∃ i, a.state.currentIndex = some i ∧ i < a.state.data.length) := by
  have hguess : ∀ (d : String) (b : App),
      (b.state = idleState ∨
        (b.state.symbol.isSome = true ∧
          ∃ i, b.state.currentIndex = some i ∧ i < b.state.data.length)) →
      ((handleGuess d b).state = idleState ∨
        ((handleGuess d b).state.symbol.isSome = true ∧
          ∃ i, (handleGuess d b).state.currentIndex = some i ∧
            i < (handleGuess d b).state.data.length)) := by
    intro d b ih
    cases hb : b.state.inProgress with
    | false =>
      rw [handleGuess_of_not_inProgress d b hb]
      exact ih
    | true =>
      rcases ih with hidle | ⟨hsym, i, hi, hlt⟩
      · rw [hidle] at hb
        cases hb
      · right
        by_cases hnext : i + 1 < b.state.data.length
        · rw [handleGuess_scored_state d b i _ _ hb hi (List.getElem?_eq_getElem hlt)
            (List.getElem?_eq_getElem hnext)]
          exact ⟨hsym, i + 1, rfl, hnext⟩
        · rw [handleGuess_exhausted_state d b i hb hi (by omega)]
          exact ⟨hsym, i, hi, hlt⟩
  induction h with
  | init dom => left; rfl
  | submit today random tickerValue apiKeyValue fetched a _ _ =>
    rcases submitHandler_state toDate parseFloat fmul today random tickerValue apiKeyValue fetched a
      with hidle | ⟨entries, s, hpick, hst⟩
    · left
      exact hidle
    · right
      obtain ⟨_, _, hnext⟩ := (mem_eligibleIndices entries today s).mp
        (pickRandomStartIndex_mem fmul today random entries s hpick)
      rw [hst]
      exact ⟨rfl, s, rfl, by simp only; omega⟩
  | guessUp a _ ih => exact hguess "up" a ih
  | guessDown a _ ih => exact hguess "down" a ih
  | stop a _ ih =>
    rcases ih with hidle | ⟨hsym, i, hi, hlt⟩
    · left
      rw [endGame_state, hidle]
      rfl
    · right
      rw [endGame_state]
      exact ⟨hsym, i, hi, hlt⟩
  | reset a _ _ => left; rfl

/-- C13. In every world reachable from the loaded page by submit (a start that succeeds
or fails), guess, end and reset, whenever the phase is not idle `currentIndex` is a
number `i` with `0 ≤ i < series.length`. -/
theorem currentIndex_in_range (toDate : String → JSDate)
    (parseFloat : Option String → JSNum) (fmul : ℚ → ℚ → ℚ) (a : App)
    (h : Reachable toDate parseFloat fmul a)
    (hphase : phase a.state ≠ Phase.idle) :
    ∃ i : Nat, a.state.currentIndex = some i ∧ (0 : Int) ≤ (i : Int) ∧
      i < a.state.data.length := by
  rcases h.index_inv with hidle | ⟨_, i, hi, hlt⟩
  · rw [hidle] at hphase
    exact absurd rfl hphase
  · exact ⟨i, hi, Int.ofNat_nonneg i, hlt⟩

/-- After a start on ten trading days, one guess and the end of the game, the phase is
ended and `currentIndex` is 8, an index of the series of length 10. -/
theorem currentIndex_in_range_witness :
    phase (endGame (handleGuess "up" startedApp)).state = Phase.ended ∧
    (endGame (handleGuess "up" startedApp)).state.currentIndex = some 8 ∧
    (endGame (handleGuess "up" startedApp)).state.data.length = 10 ∧
    ∃ i : Nat, (endGame (handleGuess "up" startedApp)).state.currentIndex = some i ∧
      (0 : Int) ≤ (i : Int) ∧ i < (endGame (handleGuess "up" startedApp)).state.data.length :=
  ⟨by decide!, by decide!, by decide!,
   currentIndex_in_range tableToDate tableParseFloat exactProduct (endGame (handleGuess "up" startedApp))
    (Reachable.stop _ (Reachable.guessUp _
      (Reachable.submit noon25Jan 0 "ibm" "demo" (Except.ok tenBarResponse) _
        (Reachable.init blankDom))))
    (by decide!)⟩

/-! ## Ending and resetting -/

/-- C14. In every world `endGame` sets `inProgress` to false and leaves symbol, series,
`currentIndex`, score and the chart as they were; on a state that is not in progress it
leaves the whole state as it was, and running it twice gives the same world as running
it once. -/
theorem endGame_frame (a : App) :
    (endGame a).state.inProgress = false ∧
    (endGame a).state.symbol = a.state.symbol ∧
    (endGame a).state.data = a.state.data ∧
    (endGame a).state.currentIndex = a.state.currentIndex ∧
    (endGame a).state.score = a.state.score ∧
    (endGame a).state.chart = a.state.chart ∧
    (a.state.inProgress = false → (endGame a).state = a.state) ∧
    endGame (endGame a) = endGame a :=
  ⟨rfl, rfl, rfl, rfl, rfl, rfl,
   fun h => by rw [endGame_state]; exact state_eq_of_not_inProgress a.state h, rfl⟩

/-- Ending the game on closes 10, 10, 12 at index 1 stops it and keeps index and chart;
ending it again changes nothing. -/
theorem endGame_frame_witness :
    (endGame (gameAt series3 1 (series3.take 2))).state.inProgress = false ∧
    (endGame (gameAt series3 1 (series3.take 2))).state.currentIndex = some 1 ∧
    (endGame (endGame (gameAt series3 1 (series3.take 2)))).state =
      (endGame (gameAt series3 1 (series3.take 2))).state :=
  ⟨(endGame_frame (gameAt series3 1 (series3.take 2))).1,
   (endGame_frame (gameAt series3 1 (series3.take 2))).2.2.2.1,
   (endGame_frame (endGame (gameAt series3 1 (series3.take 2)))).2.2.2.2.2.2.1 rfl⟩

theorem Command.run_of_not_inProgress (c : Command) (a : App)
    (h : a.state.inProgress = false) : (c.run a).state = a.state := by
  cases c with
  | guess direction =>
    show (handleGuess direction a).state = a.state
    rw [handleGuess_of_not_inProgress direction a h]
  | endGame =>
    show (StockGame.endGame a).state = a.state
    rw [endGame_state]
    exact state_eq_of_not_inProgress a.state h

theorem runCommands_of_not_inProgress (cmds : List Command) :
    ∀ a : App, a.state.inProgress = false → (runCommands cmds a).state = a.state := by
  induction cmds with
  | nil => intro a _; rfl
  | cons c cs ih =>
    intro a h
    have h1 := Command.run_of_not_inProgress c a h
    have h2 : (runCommands (c :: cs) a) = runCommands cs (c.run a) := rfl
    rw [h2, ih (c.run a) (by rw [h1]; exact h), h1]

/-- C15. Once a game is not in progress, a `handleGuess` call with any direction leaves
the whole world as it was (no state field changes, nothing is appended to the chart),
and after any sequence of guess and end commands the state is still the same, so the
game is still not in progress; a start that picks an index does put a game in
progress. -/
theorem not_inProgress_is_stable (a : App) (hnot : a.state.inProgress = false) :
    (∀ direction : String, handleGuess direction a = a) ∧
    (∀ cmds : List Command,
      (runCommands cmds a).state = a.state ∧ (runCommands cmds a).state.inProgress = false) ∧
    (∀ (fmul : ℚ → ℚ → ℚ) (today : Int) (random : ℚ) (symbol apiKey : String) (entries : List Entry) (s : Nat),
      pickRandomStartIndex fmul today random entries = some s →
      (startGameWithData fmul today random symbol apiKey entries a).1.state.inProgress = true) := by
  refine ⟨fun d => handleGuess_of_not_inProgress d a hnot, fun cmds => ?_, ?_⟩
  · have h := runCommands_of_not_inProgress cmds a hnot
    exact ⟨h, by rw [h]; exact hnot⟩
  · intro fmul today random symbol apiKey entries s hpick
    obtain ⟨shown, _, heq⟩ :=
      startGameWithData_of_some fmul today random symbol apiKey entries a s hpick
    rw [heq]

/-- After the game on closes 10, 10, 12 has run out of data at index 2, the commands
guess up, end, guess down leave the state as it is, not in progress; a start on ten
trading days puts a game in progress again. -/
theorem not_inProgress_is_stable_witness :
    (handleGuess "up" (gameAt series3 2 series3)).state.inProgress = false ∧
    (runCommands [Command.guess "up", Command.endGame, Command.guess "down"]
      (handleGuess "up" (gameAt series3 2 series3))).state =
        (handleGuess "up" (gameAt series3 2 series3)).state ∧
    (startGameWithData exactProduct noon25Jan 0 "ibm" "demo" series10
      (handleGuess "up" (gameAt series3 2 series3))).1.state.inProgress = true :=
  ⟨by decide!,
   ((not_inProgress_is_stable (handleGuess "up" (gameAt series3 2 series3)) (by decide!)).2.1
      [Command.guess "up", Command.endGame, Command.guess "down"]).1,
   (not_inProgress_is_stable (handleGuess "up" (gameAt series3 2 series3)) (by decide!)).2.2
      exactProduct noon25Jan 0 "ibm" "demo" series10 7 (by decide!)⟩

/-- C16. From every world `resetGame` yields the same idle state (no symbol, empty
series, no chart, no `currentIndex`, score 0, not in progress), whatever the world was,
with the same game fields on the page; running it twice gives the same world as running
it once. -/
theorem resetGame_idle (a b : App) :
    (resetGame a).state = idleState ∧
    (resetGame a).state = (resetGame b).state ∧
    ((resetGame a).state.symbol = none ∧ (resetGame a).state.data = [] ∧
      (resetGame a).state.currentIndex = none ∧ (resetGame a).state.score = 0 ∧
      (resetGame a).state.inProgress = false ∧ (resetGame a).state.chart = none) ∧
    ((resetGame a).dom.statusTicker = (resetGame b).dom.statusTicker ∧
      (resetGame a).dom.currentDate = (resetGame b).dom.currentDate ∧
      (resetGame a).dom.score = (resetGame b).dom.score ∧
      (resetGame a).dom.instruction = (resetGame b).dom.instruction ∧
      (resetGame a).dom.feedback = (resetGame b).dom.feedback ∧
      (resetGame a).dom.guessUpDisabled = (resetGame b).dom.guessUpDisabled ∧
      (resetGame a).dom.guessDownDisabled = (resetGame b).dom.guessDownDisabled ∧
      (resetGame a).dom.endGameDisabled = (resetGame b).dom.endGameDisabled ∧
      (resetGame a).dom.resetDisabled = (resetGame b).dom.resetDisabled) ∧
    resetGame (resetGame a) = resetGame a :=
  ⟨rfl, rfl, ⟨rfl, rfl, rfl, rfl, rfl, rfl⟩, ⟨rfl, rfl, rfl, rfl, rfl, rfl, rfl, rfl, rfl⟩, rfl⟩

/-- Resetting a game in progress and resetting an ended game give the same idle
state. -/
theorem resetGame_idle_witness :
    (resetGame (gameAt series3 1 (series3.take 2))).state = idleState ∧
    (resetGame (gameAt series3 1 (series3.take 2))).state =
      (resetGame (endGame startedApp)).state :=
  ⟨(resetGame_idle (gameAt series3 1 (series3.take 2)) (endGame startedApp)).1,
   (resetGame_idle (gameAt series3 1 (series3.take 2)) (endGame startedApp)).2.1⟩

/-! ## The draw among the eligible indices -/

theorem eligibleIndices_sorted (entries : List Entry) (lo hi : Int) :
    (eligibleIndices entries lo hi).Pairwise (fun i j => i < j) := by
  unfold eligibleIndices
  exact (List.pairwise_lt_range entries.length).filter _

/-- Two positions of a strictly ascending list that hold the same value are the same. -/
theorem index_unique_of_sorted (l : List Nat) (hs : l.Pairwise (fun i j => i < j))
    (j k x : Nat) (hj : l[j]? = some x) (hk : l[k]? = some x) : j = k := by
  have hjl := lt_length_of_getElem? hj
  have hkl := lt_length_of_getElem? hk
  rw [List.getElem?_eq_getElem hjl] at hj
  rw [List.getElem?_eq_getElem hkl] at hk
  have hjx := Option.some.inj hj
  have hkx := Option.some.inj hk
  rcases Nat.lt_trichotomy j k with hlt | heq | hgt
  · have := List.pairwise_iff_getElem.mp hs j k hjl hkl hlt
    omega
  · exact heq
  · have := List.pairwise_iff_getElem.mp hs k j hkl hjl hgt
    omega

theorem floor_mul_eq (r : ℚ) (k n : Nat) (hn : 0 < n) (hlo : (k : ℚ) / (n : ℚ) ≤ r)
    (hhi : r < ((k : ℚ) + 1) / (n : ℚ)) : Int.floor (r * (n : ℚ)) = (k : Int) := by
  have hnq : (0 : ℚ) < (n : ℚ) := by exact_mod_cast hn
  rw [Int.floor_eq_iff]
  constructor
  · have := (div_le_iff₀ hnq).mp hlo
    simpa using this
  · have := (lt_div_iff₀ hnq).mp hhi
    simpa using this

/-- The index `k` is drawn exactly when the product lies in `[k, k + 1)`. -/
theorem pickRandomStartIndex_eq_some_iff (fmul : ℚ → ℚ → ℚ) (today : Int) (r : ℚ)
    (entries : List Entry) (k i : Nat) (hk : (eligibleAt today entries)[k]? = some i) :
    pickRandomStartIndex fmul today r entries = some i ↔
      (k : ℚ) ≤ fmul r ((eligibleAt today entries).length : ℚ) ∧
        fmul r ((eligibleAt today entries).length : ℚ) < (k : ℚ) + 1 := by
  have hne : eligibleAt today entries ≠ [] := List.ne_nil_of_mem (List.getElem?_mem hk)
  constructor
  · intro hpick
    have h0 : 0 ≤ fmul r ((eligibleAt today entries).length : ℚ) := by
      by_contra hneg
      have hfl : Int.floor (fmul r ((eligibleAt today entries).length : ℚ)) < 0 := by
        rw [Int.floor_lt]
        exact_mod_cast not_le.mp hneg
      have hpos : 0 < (eligibleAt today entries).length := List.length_pos.mpr hne
      have hlen : entries.length ≠ 0 := by
        intro hz
        apply hne
        unfold eligibleAt eligibleIndices
        simp [hz]
      unfold eligibleAt at hpos hfl
      unfold pickRandomStartIndex at hpick
      simp only [hlen, if_false, (Nat.pos_iff_ne_zero.mp hpos), hfl, if_true] at hpick
      cases hpick
    rw [pickRandomStartIndex_eq_lookup fmul today r entries h0 hne] at hpick
    have hjk := index_unique_of_sorted _ (eligibleIndices_sorted _ _ _) _ k i hpick hk
    have hfl0 : 0 ≤ Int.floor (fmul r ((eligibleAt today entries).length : ℚ)) :=
      Int.floor_nonneg.mpr h0
    have hfl : Int.floor (fmul r ((eligibleAt today entries).length : ℚ)) = (k : Int) := by
      omega
    have h := Int.floor_eq_iff.mp hfl
    exact ⟨by simpa using h.1, by simpa using h.2⟩
  · rintro ⟨hlo, hhi⟩
    have h0 : 0 ≤ fmul r ((eligibleAt today entries).length : ℚ) :=
      le_trans (Nat.cast_nonneg k) hlo
    have hfl : Int.floor (fmul r ((eligibleAt today entries).length : ℚ)) = (k : Int) := by
      rw [Int.floor_eq_iff]
      exact ⟨by simpa using hlo, by simpa using hhi⟩
    rw [pickRandomStartIndex_eq_lookup fmul today r entries h0 hne, hfl, Int.toNat_ofNat]
    exact hk

theorem isDouble_natCast (n : Nat) (hn : n < 2 ^ 53) : IsDouble (n : ℚ) :=
  ⟨(n : Int), 0, by rw [abs_of_nonneg (Int.ofNat_nonneg n)]; exact_mod_cast hn,
    by norm_num, by norm_num, by simp⟩

theorem isDouble_div_two_pow_26 (c : Nat) (hc : c < 2 ^ 53) :
    IsDouble ((c : ℚ) / 2 ^ 26) :=
  ⟨(c : Int), -26, by rw [abs_of_nonneg (Int.ofNat_nonneg c)]; exact_mod_cast hc,
    by norm_num, by norm_num, by
      rw [zpow_neg, div_eq_mul_inv]
      norm_cast⟩

/-- For `k < n ≤ 2 ^ 26` there is a double `r` in `[k / n, (k + 1) / n)`, inside `[0, 1)`,
whose exact product with `n` is a double as well. -/
theorem exists_double_in_interval (k n : Nat) (hk : k < n) (hn : n ≤ 2 ^ 26) :
    ∃ r : ℚ, IsDouble r ∧ IsDouble (n : ℚ) ∧ IsDouble (r * (n : ℚ)) ∧ 0 ≤ r ∧ r < 1 ∧
      (k : ℚ) / (n : ℚ) ≤ r ∧ r < ((k : ℚ) + 1) / (n : ℚ) := by
  have hnpos : 0 < n := by omega
  have hnq : (0 : ℚ) < (n : ℚ) := by exact_mod_cast hnpos
  have hn2 : n ≤ 67108864 := by
    have : (2 : Nat) ^ 26 = 67108864 := by norm_num
    omega
  have hdm := Nat.div_add_mod (k * 67108864 + (n - 1)) n
  have hmod := Nat.mod_lt (k * 67108864 + (n - 1)) hnpos
  generalize hc : (k * 67108864 + (n - 1)) / n = c at hdm
  generalize (k * 67108864 + (n - 1)) % n = d at hdm hmod
  have h1 : k * 67108864 ≤ n * c := by omega
  have h2 : n * c < (k + 1) * 67108864 := by omega
  have h3 : n * c < n * 67108864 := by
    have : (k + 1) * 67108864 ≤ n * 67108864 := Nat.mul_le_mul_right _ hk
    omega
  have hc26 : c < 67108864 := Nat.lt_of_mul_lt_mul_left h3
  have hpow : (2 : ℚ) ^ 26 = 67108864 := by norm_num
  have h1q : (k : ℚ) * 67108864 ≤ (n : ℚ) * (c : ℚ) := by exact_mod_cast h1
  have h2q : (n : ℚ) * (c : ℚ) < ((k : ℚ) + 1) * 67108864 := by exact_mod_cast h2
  have hprodnat : n * c < 2 ^ 53 := by
    have : n * 67108864 ≤ 67108864 * 67108864 := Nat.mul_le_mul_right _ hn2
    have h53 : (2 : Nat) ^ 53 = 9007199254740992 := by norm_num
    omega
  refine ⟨(c : ℚ) / 2 ^ 26, isDouble_div_two_pow_26 c ?_, isDouble_natCast n ?_, ?_, ?_, ?_, ?_,
    ?_⟩
  · have h53 : (2 : Nat) ^ 53 = 9007199254740992 := by norm_num
    omega
  · have h53 : (2 : Nat) ^ 53 = 9007199254740992 := by norm_num
    omega
  · have heq : (c : ℚ) / 2 ^ 26 * (n : ℚ) = ((n * c : Nat) : ℚ) / 2 ^ 26 := by
      push_cast
      ring
    rw [heq]
    exact isDouble_div_two_pow_26 (n * c) hprodnat
  · positivity
  · rw [hpow, div_lt_one (by norm_num)]
    exact_mod_cast hc26
  · rw [hpow, div_le_div_iff₀ hnq (by norm_num)]
    linarith
  · rw [hpow, div_lt_div_iff₀ (by norm_num) hnq]
    linarith

/-- C17 as stated fails: seen from 2024-01-25 noon, index 7 of `seriesBoundary` is dated
exactly 100 calendar days back, has 7 prior points and a next point, so it is eligible at
day precision, yet no index is picked. -/
theorem pickRandomStartIndex_misses_boundary_day :
    EligibleByDay noon25Jan seriesBoundary 7 ∧
    ((0 : ℚ) ≤ 1 / 2 ∧ (1 / 2 : ℚ) < 1) ∧
    pickRandomStartIndex exactProduct noon25Jan (1 / 2) seriesBoundary = none :=
  ⟨⟨⟨{ dateStr := "2023-10-17", date := some 1697500800000, close := JSNum.num 177 },
      1697500800000, rfl, rfl, by decide, by decide⟩, by decide, by decide⟩,
   ⟨by norm_num, by norm_num⟩, by decide!⟩

/-- C17, amended. Take the window on time values, from `today` minus 100 days to `today`
minus 7 days with the time of day of `today` kept, and let the eligible indices
(date in that window, `i - 7 ≥ 0`, `i + 1 < series.length`) be `n > 0` in number,
`e_0 < … < e_(n-1)`. Write `p` for the double product `fmul r n` that the code floors.
Whenever `0 ≤ p < n`, as for every value `r` of `Math.random()`, the lookup at `floor(p)`
is in bounds and `pickRandomStartIndex` returns `e_floor(p)`; `e_k` is returned exactly
when `k ≤ p < k + 1`; where the product is exact (`p = r * n`) this is the interval
`k / n ≤ r < (k + 1) / n`; and when products that are doubles are computed exactly and
`n ≤ 2 ^ 26`, every eligible index is returned for some double `r` in `[0, 1)`. -/
theorem pickRandomStartIndex_uniform (fmul : ℚ → ℚ → ℚ) (today : Int)
    (entries : List Entry) (hne : eligibleAt today entries ≠ []) :
    ((eligibleAt today entries).Pairwise (fun i j => i < j) ∧
      ∀ i, i ∈ eligibleAt today entries ↔ Eligible today entries i) ∧
    (∀ r : ℚ, 0 ≤ fmul r ((eligibleAt today entries).length : ℚ) →
      fmul r ((eligibleAt today entries).length : ℚ) < ((eligibleAt today entries).length : ℚ) →
      ∃ j i : Nat, (j : Int) = Int.floor (fmul r ((eligibleAt today entries).length : ℚ)) ∧
        (eligibleAt today entries)[j]? = some i ∧
        pickRandomStartIndex fmul today r entries = some i) ∧
    (∀ (k i : Nat) (r : ℚ), (eligibleAt today entries)[k]? = some i →
      (pickRandomStartIndex fmul today r entries = some i ↔
        (k : ℚ) ≤ fmul r ((eligibleAt today entries).length : ℚ) ∧
          fmul r ((eligibleAt today entries).length : ℚ) < (k : ℚ) + 1)) ∧
    (∀ (k i : Nat) (r : ℚ), (eligibleAt today entries)[k]? = some i →
      fmul r ((eligibleAt today entries).length : ℚ) =
        r * ((eligibleAt today entries).length : ℚ) →
      (k : ℚ) / ((eligibleAt today entries).length : ℚ) ≤ r →
      r < ((k : ℚ) + 1) / ((eligibleAt today entries).length : ℚ) →
      pickRandomStartIndex fmul today r entries = some i) ∧
    ((∀ x y : ℚ, IsDouble x → IsDouble y → IsDouble (x * y) → fmul x y = x * y) →
      (eligibleAt today entries).length ≤ 2 ^ 26 →
      ∀ i, Eligible today entries i →
        ∃ r : ℚ, IsDouble r ∧ 0 ≤ r ∧ r < 1 ∧
          pickRandomStartIndex fmul today r entries = some i) := by
  have hpos : 0 < (eligibleAt today entries).length := List.length_pos.mpr hne
  have hnq : (0 : ℚ) < ((eligibleAt today entries).length : ℚ) := by exact_mod_cast hpos
  have hinterval : ∀ (k i : Nat) (r : ℚ), (eligibleAt today entries)[k]? = some i →
      fmul r ((eligibleAt today entries).length : ℚ) =
        r * ((eligibleAt today entries).length : ℚ) →
      (k : ℚ) / ((eligibleAt today entries).length : ℚ) ≤ r →
      r < ((k : ℚ) + 1) / ((eligibleAt today entries).length : ℚ) →
      pickRandomStartIndex fmul today r entries = some i := by
    intro k i r hk hexact hlo hhi
    rw [pickRandomStartIndex_eq_some_iff fmul today r entries k i hk, hexact]
    exact ⟨(div_le_iff₀ hnq).mp hlo, (lt_div_iff₀ hnq).mp hhi⟩
  refine ⟨⟨eligibleIndices_sorted _ _ _, mem_eligibleIndices entries today⟩, ?_,
    fun k i r => pickRandomStartIndex_eq_some_iff fmul today r entries k i, hinterval, ?_⟩
  · intro r h0 h1
    have hlt := floor_toNat_lt _ _ h0 h1
    refine ⟨_, _, Int.toNat_of_nonneg (Int.floor_nonneg.mpr h0),
      List.getElem?_eq_getElem hlt, ?_⟩
    rw [pickRandomStartIndex_eq_lookup fmul today r entries h0 hne]
    exact List.getElem?_eq_getElem hlt
  · intro hexact hsmall i hi
    obtain ⟨k, hk⟩ := List.mem_iff_getElem?.mp ((mem_eligibleIndices entries today i).mpr hi)
    have hklt := lt_length_of_getElem? hk
    obtain ⟨r, hr, hn, hrn, h0, h1, hlo, hhi⟩ :=
      exists_double_in_interval k _ hklt hsmall
    exact ⟨r, hr, h0, h1, hinterval k i r hk (hexact r _ hr hn hrn) hlo hhi⟩

/-- On ten trading days seen from 2024-01-25 noon the eligible indices are 7 and 8; the
random value 1/2 has the exact product 1 with 2, which picks 8; the value 1/4 has the
exact product 1/2, which picks 7. -/
theorem pickRandomStartIndex_uniform_witness :
    eligibleAt noon25Jan series10 = [7, 8] ∧
    pickRandomStartIndex exactProduct noon25Jan (1 / 2) series10 = some 8 ∧
    pickRandomStartIndex exactProduct noon25Jan (1 / 4) series10 = some 7 :=
  have hE : eligibleAt noon25Jan series10 = [7, 8] := by decide!
  ⟨hE,
   (pickRandomStartIndex_uniform exactProduct noon25Jan series10 (by decide!)).2.2.2.1 1 8
      (1 / 2) (by decide!) rfl (by rw [hE]; norm_num) (by rw [hE]; norm_num),
   (pickRandomStartIndex_uniform exactProduct noon25Jan series10 (by decide!)).2.2.2.1 0 7
      (1 / 4) (by decide!) rfl (by rw [hE]; norm_num) (by rw [hE]; norm_num)⟩

/-! ## A game from its start -/

theorem guesses_append (xs ys : List String) (a : App) :
    guesses (xs ++ ys) a = guesses ys (guesses xs a) := by
  simp [guesses, List.foldl_append]

/-- The state after guesses that all find a next point. -/
theorem guesses_scored_state (dirs : List String) :
    ∀ (a : App) (i : Nat) (c : Chart), a.state.inProgress = true →
      a.state.currentIndex = some i → a.state.chart = some c →
      i + dirs.length < a.state.data.length →
      (guesses dirs a).state.inProgress = true ∧
      (guesses dirs a).state.currentIndex = some (i + dirs.length) ∧
      (guesses dirs a).state.data = a.state.data ∧
      (guesses dirs a).state.chart = some
        { labels := c.labels ++
            ((a.state.data.drop (i + 1)).take dirs.length).map (fun e => e.dateStr)
          data := c.data ++
            ((a.state.data.drop (i + 1)).take dirs.length).map (fun e => e.close) } := by
  induction dirs with
  | nil =>
    intro a i c hprog hidx hchart _
    refine ⟨hprog, hidx, rfl, ?_⟩
    simp [guesses, hchart]
  | cons d ds ih =>
    intro a i c hprog hidx hchart hlen
    simp only [List.length_cons] at hlen
    have hlt : i + 1 < a.state.data.length := by omega
    have hst := handleGuess_scored_state d a i _ _ hprog hidx
      (List.getElem?_eq_getElem (by omega)) (List.getElem?_eq_getElem hlt)
    have h1 : (handleGuess d a).state.inProgress = true := by rw [hst]; exact hprog
    have h2 : (handleGuess d a).state.currentIndex = some (i + 1) := by rw [hst]
    have h3 : (handleGuess d a).state.data = a.state.data := by rw [hst]
    have h4 : (handleGuess d a).state.chart = some
        { labels := c.labels ++ [(a.state.data[i + 1]).dateStr],
          data := c.data ++ [(a.state.data[i + 1]).close] } := by
      rw [hst]
      simp only [hchart, Option.map_some']
    obtain ⟨g1, g2, g3, g4⟩ := ih (handleGuess d a) (i + 1) _ h1 h2 h4 (by rw [h3]; omega)
    rw [guesses_cons]
    refine ⟨g1, ?_, g3.trans h3, ?_⟩
    · rw [g2, List.length_cons]
      congr 1
      omega
    · rw [g4, h3, List.length_cons, List.drop_eq_getElem_cons hlt, List.take_succ_cons,
        List.map_cons, List.map_cons, List.append_assoc, List.append_assoc]
      rfl

/-- A guess keeps the displayed date on the last chart label while the game is in
progress. -/
theorem handleGuess_dateShown (d : String) (b : App)
    (h : b.state.inProgress = true →
      DateShown b ∧ ∃ i, b.state.currentIndex = some i ∧ i < b.state.data.length) :
    (handleGuess d b).state.inProgress = true →
      DateShown (handleGuess d b) ∧
      ∃ i, (handleGuess d b).state.currentIndex = some i ∧
        i < (handleGuess d b).state.data.length := by
  intro hprog
  cases hb : b.state.inProgress with
  | false =>
    rw [handleGuess_of_not_inProgress d b hb, hb] at hprog
    cases hprog
  | true =>
    obtain ⟨⟨c, hc, _, _⟩, i, hi, hlt⟩ := h hb
    by_cases hnext : i + 1 < b.state.data.length
    · have hst := handleGuess_scored_state d b i _ _ hb hi (List.getElem?_eq_getElem hlt)
        (List.getElem?_eq_getElem hnext)
      have hdom := handleGuess_scored_dom d b i _ _ hb hi (List.getElem?_eq_getElem hlt)
        (List.getElem?_eq_getElem hnext)
      refine ⟨⟨{ labels := c.labels ++ [(b.state.data[i + 1]).dateStr],
                 data := c.data ++ [(b.state.data[i + 1]).close] }, ?_, ?_, ?_⟩,
        i + 1, ?_, ?_⟩
      · rw [hst]
        simp only [hc, Option.map_some']
      · simp
      · rw [hdom]
        simp
      · rw [hst]
      · rw [hst]
        exact hnext
    · rw [handleGuess_exhausted_state d b i hb hi (by omega)] at hprog
      cases hprog

theorem guesses_dateShown (dirs : List String) :
    ∀ b : App,
      (b.state.inProgress = true →
        DateShown b ∧ ∃ i, b.state.currentIndex = some i ∧ i < b.state.data.length) →
      (guesses dirs b).state.inProgress = true →
        DateShown (guesses dirs b) ∧
        ∃ i, (guesses dirs b).state.currentIndex = some i ∧
          i < (guesses dirs b).state.data.length := by
  induction dirs with
  | nil => intro b h; exact h
  | cons d ds ih =>
    intro b h
    rw [guesses_cons]
    exact ih (handleGuess d b) (handleGuess_dateShown d b h)

/-- The world right after a start at the picked index `s`. -/
theorem started_facts (fmul : ℚ → ℚ → ℚ) (today : Int) (random : ℚ) (symbol apiKey : String)
    (entries : List Entry) (a a0 : App) (s : Nat)
    (hpick : pickRandomStartIndex fmul today random entries = some s)
    (hstart : startGameWithData fmul today random symbol apiKey entries a = (a0, none)) :
    (7 ≤ s ∧ s + 1 < entries.length) ∧
    a0.state.inProgress = true ∧ a0.state.currentIndex = some s ∧ a0.state.data = entries ∧
    a0.state.score = 0 ∧
    a0.state.chart = some
      { labels := ((entries.drop (s - 7)).take 7).map (fun e => e.dateStr)
        data := ((entries.drop (s - 7)).take 7).map (fun e => e.close) } ∧
    ∃ shown, entries[s - 1]? = some shown ∧ a0.dom.currentDate = some shown.dateStr := by
  obtain ⟨_, h7, hnext⟩ :=
    (mem_eligibleIndices entries today s).mp
      (pickRandomStartIndex_mem fmul today random entries s hpick)
  obtain ⟨shown, hshown, heq⟩ :=
    startGameWithData_of_some fmul today random symbol apiKey entries a s hpick
  rw [heq] at hstart
  have ha0 := (Prod.mk.inj hstart).1
  subst ha0
  exact ⟨⟨by omega, hnext⟩, rfl, rfl, rfl, rfl, rfl, shown, hshown, rfl⟩

/-- C18. After a successful start at index `s` the displayed current date is the date of
`series[s - 1]`, the last label of the seeded chart and one position before
`currentIndex = s`; and after any number of guesses, while the game is in progress, the
displayed current date is the label of the last point on the chart. -/
theorem currentDate_is_last_label (fmul : ℚ → ℚ → ℚ) (today : Int) (random : ℚ)
    (symbol apiKey : String)
    (entries : List Entry) (a a0 : App) (s : Nat)
    (hpick : pickRandomStartIndex fmul today random entries = some s)
    (hstart : startGameWithData fmul today random symbol apiKey entries a = (a0, none)) :
    (∃ shown c, entries[s - 1]? = some shown ∧ s - 1 + 1 = s ∧
      a0.state.currentIndex = some s ∧
      a0.dom.currentDate = some shown.dateStr ∧
      a0.state.chart = some c ∧ c.labels.getLast? = some shown.dateStr) ∧
    ∀ dirs : List String, (guesses dirs a0).state.inProgress = true →
      DateShown (guesses dirs a0) := by
  obtain ⟨⟨h7, hnext⟩, hprog, hidx, hdata, _, hchart, shown, hshown, hdate⟩ :=
    started_facts fmul today random symbol apiKey entries a a0 s hpick hstart
  have hlast : (((entries.drop (s - 7)).take 7).map (fun e => e.dateStr)).getLast? =
      some shown.dateStr := by
    have h6 : s - 7 + (7 - 1) = s - 1 := by omega
    rw [List.getLast?_eq_getElem?, List.length_map, seed_length entries s h7 (by omega),
      List.getElem?_map, List.getElem?_take_of_lt (by omega), List.getElem?_drop, h6, hshown]
    rfl
  refine ⟨⟨shown, _, hshown, by omega, hidx, hdate, hchart, hlast⟩, ?_⟩
  intro dirs hp
  refine (guesses_dateShown dirs a0 (fun _ => ⟨⟨_, hchart, ?_, ?_⟩, s, hidx, ?_⟩) hp).1
  · intro hnil
    have hnil2 : ((entries.drop (s - 7)).take 7).map (fun e => e.dateStr) = [] := hnil
    rw [hnil2] at hlast
    cases hlast
  · rw [hdate]
    exact hlast.symm
  · rw [hdata]
    omega

/-- After a start on ten trading days at index 7 the page shows 2024-01-10, the day
before the reference day; after one guess it shows 2024-01-12, the last chart label. -/
theorem currentDate_is_last_label_witness :
    startedAt7.state.currentIndex = some 7 ∧
    startedAt7.dom.currentDate = some "2024-01-10" ∧
    (guesses ["up"] startedAt7).dom.currentDate = some "2024-01-12" ∧
    DateShown (guesses ["up"] startedAt7) :=
  ⟨by decide!, by decide!, by decide!,
   (currentDate_is_last_label exactProduct noon25Jan 0 "ibm" "demo" series10 (initialApp blankDom)
      startedAt7 7 (by decide!) (by decide!)).2 ["up"] (by decide!)⟩

theorem segment_getElem? {α : Type} (l : List α) (start len j : Nat) (hj : j < len) :
    ((l.drop start).take len)[j]? = l[start + j]? := by
  rw [List.getElem?_take_of_lt hj, List.getElem?_drop]

/-- C19. After a start at index `s` and `k` guesses that are all scored
(`s + k < series.length`), the chart holds exactly `7 + k` points: those of
`series[s-7], …, series[s-1]` followed by those of `series[s+1], …, series[s+k]`, in that
order, each with its date string and close. Every charted index differs from `s`; with
unique date strings, the date string of `series[s]` is not among the labels. -/
theorem chart_after_guesses (fmul : ℚ → ℚ → ℚ) (today : Int) (random : ℚ) (symbol apiKey : String)
    (entries : List Entry) (a a0 : App) (s : Nat)
    (hpick : pickRandomStartIndex fmul today random entries = some s)
    (hstart : startGameWithData fmul today random symbol apiKey entries a = (a0, none))
    (dirs : List String) (hk : s + dirs.length < entries.length) :
    ∃ c, (guesses dirs a0).state.chart = some c ∧
      c.labels = ((entries.drop (s - 7)).take 7 ++
        (entries.drop (s + 1)).take dirs.length).map (fun e => e.dateStr) ∧
      c.data = ((entries.drop (s - 7)).take 7 ++
        (entries.drop (s + 1)).take dirs.length).map (fun e => e.close) ∧
      c.labels.length = 7 + dirs.length ∧ c.data.length = 7 + dirs.length ∧
      (∀ j, j < 7 → s - 7 + j < s ∧
        c.labels[j]? = (entries[s - 7 + j]?).map (fun e => e.dateStr) ∧
        c.data[j]? = (entries[s - 7 + j]?).map (fun e => e.close)) ∧
      (∀ j, j < dirs.length → s < s + 1 + j ∧
        c.labels[7 + j]? = (entries[s + 1 + j]?).map (fun e => e.dateStr) ∧
        c.data[7 + j]? = (entries[s + 1 + j]?).map (fun e => e.close)) ∧
      ((entries.map (fun e => e.dateStr)).Nodup →
        ∀ e, entries[s]? = some e → e.dateStr ∉ c.labels) := by
  obtain ⟨⟨h7, hnext⟩, hprog, hidx, hdata, _, hchart, _⟩ :=
    started_facts fmul today random symbol apiKey entries a a0 s hpick hstart
  obtain ⟨_, _, _, g4⟩ := guesses_scored_state dirs a0 s _ hprog hidx hchart
    (by rw [hdata]; exact hk)
  rw [hdata] at g4
  have hseed := seed_length entries s h7 (by omega)
  have hrest : ((entries.drop (s + 1)).take dirs.length).length = dirs.length := by
    rw [List.length_take, List.length_drop]
    omega
  have hfst : ∀ j, j < 7 → ∀ f : Entry → String,
      (((entries.drop (s - 7)).take 7 ++ (entries.drop (s + 1)).take dirs.length).map f)[j]? =
        (entries[s - 7 + j]?).map f := by
    intro j hj f
    rw [List.getElem?_map, List.getElem?_append_left (by rw [hseed]; exact hj),
      segment_getElem? entries (s - 7) 7 j hj]
  have hfstc : ∀ j, j < 7 → ∀ f : Entry → JSNum,
      (((entries.drop (s - 7)).take 7 ++ (entries.drop (s + 1)).take dirs.length).map f)[j]? =
        (entries[s - 7 + j]?).map f := by
    intro j hj f
    rw [List.getElem?_map, List.getElem?_append_left (by rw [hseed]; exact hj),
      segment_getElem? entries (s - 7) 7 j hj]
  have hsnd : ∀ j, j < dirs.length → ∀ f : Entry → String,
      (((entries.drop (s - 7)).take 7 ++ (entries.drop (s + 1)).take dirs.length).map f)[7 + j]?
        = (entries[s + 1 + j]?).map f := by
    intro j hj f
    rw [List.getElem?_map, List.getElem?_append_right (by rw [hseed]; omega), hseed,
      show 7 + j - 7 = j by omega, segment_getElem? entries (s + 1) dirs.length j hj]
  have hsndc : ∀ j, j < dirs.length → ∀ f : Entry → JSNum,
      (((entries.drop (s - 7)).take 7 ++ (entries.drop (s + 1)).take dirs.length).map f)[7 + j]?
        = (entries[s + 1 + j]?).map f := by
    intro j hj f
    rw [List.getElem?_map, List.getElem?_append_right (by rw [hseed]; omega), hseed,
      show 7 + j - 7 = j by omega, segment_getElem? entries (s + 1) dirs.length j hj]
  refine ⟨_, g4, ?_, ?_, ?_, ?_, ?_, ?_, ?_⟩
  · simp only [List.map_append]
  · simp only [List.map_append]
  · simp only [List.length_append, List.length_map, hseed, hrest]
  · simp only [List.length_append, List.length_map, hseed, hrest]
  · intro j hj
    refine ⟨by omega, ?_, ?_⟩
    · simp only [← List.map_append]
      exact hfst j hj _
    · simp only [← List.map_append]
      exact hfstc j hj _
  · intro j hj
    refine ⟨by omega, ?_, ?_⟩
    · simp only [← List.map_append]
      exact hsnd j hj _
    · simp only [← List.map_append]
      exact hsndc j hj _
  · intro hnd e he hmem
    simp only [← List.map_append] at hmem
    obtain ⟨j, hj⟩ := List.mem_iff_getElem?.mp hmem
    have hjlt := lt_length_of_getElem? hj
    simp only [List.length_append, List.length_map, hseed, hrest] at hjlt
    have hlen : (entries.map (fun e => e.dateStr)).length = entries.length :=
      List.length_map _ _
    have hs : (entries.map (fun e => e.dateStr))[s]? = some e.dateStr := by
      rw [List.getElem?_map, he]
      rfl
    have hne := List.nodup_iff_getElem?_ne_getElem?.mp hnd
    by_cases hj7 : j < 7
    · rw [hfst j hj7, ← List.getElem?_map] at hj
      exact hne (s - 7 + j) s (by omega) (by rw [hlen]; omega) (hj.trans hs.symm)
    · have hjk : j - 7 < dirs.length := by omega
      have hj2 := hsnd (j - 7) hjk (fun e => e.dateStr)
      rw [show 7 + (j - 7) = j by omega, hj, ← List.getElem?_map] at hj2
      exact hne s (s + 1 + (j - 7)) (by omega) (by rw [hlen]; omega) (hs.trans hj2)

/-- After a start on ten trading days at index 7 and two guesses the chart shows nine
points: 2024-01-02 to 2024-01-10 (indices 0 to 6), then 2024-01-12 and 2024-01-15
(indices 8 and 9); 2024-01-11, the start day, is not shown. -/
theorem chart_after_guesses_witness :
    (guesses ["up", "down"] startedAt7).state.chart = some
      { labels := ["2024-01-02", "2024-01-03", "2024-01-04", "2024-01-05", "2024-01-08",
          "2024-01-09", "2024-01-10", "2024-01-12", "2024-01-15"],
        data := [JSNum.num 185, JSNum.num 184, JSNum.num 181, JSNum.num 181, JSNum.num 185,
          JSNum.num 185, JSNum.num 186, JSNum.num 186, JSNum.num 183] } ∧
    ∃ c, (guesses ["up", "down"] startedAt7).state.chart = some c ∧
      c.labels.length = 7 + 2 ∧
      ((series10.map (fun e => e.dateStr)).Nodup →
        ∀ e, series10[7]? = some e → e.dateStr ∉ c.labels) :=
  ⟨by decide!,
   (chart_after_guesses exactProduct noon25Jan 0 "ibm" "demo" series10 (initialApp blankDom)
      startedAt7 7 (by decide!) (by decide!) ["up", "down"] (by decide)).elim
    (fun c h => ⟨c, h.1, h.2.2.2.1, h.2.2.2.2.2.2.2⟩)⟩

/-! ## The length of a game -/

theorem correctCount_le_length (data : List Entry) (dirs : List String) :
    ∀ i, correctCount data i dirs ≤ dirs.length := by
  induction dirs with
  | nil => intro i; exact Nat.le_refl 0
  | cons d ds ih =>
    intro i
    have h := ih (i + 1)
    simp only [correctCount, List.length_cons]
    split_ifs <;> omega

theorem correctCount_le_remaining (data : List Entry) (dirs : List String) :
    ∀ i, correctCount data i dirs ≤ data.length - 1 - i := by
  induction dirs with
  | nil => intro i; exact Nat.zero_le _
  | cons d ds ih =>
    intro i
    by_cases hlt : i + 1 < data.length
    · have h := ih (i + 1)
      simp only [correctCount]
      split_ifs <;> omega
    · rw [correctCount_of_exhausted data (d :: ds) i (by omega)]
      exact Nat.zero_le _

/-- C20. In a game started at index `s` on a series of length `n`, for every sequence of
guess directions: while at most `n - 1 - s` guesses have been made the game is in
progress and `currentIndex` is `s` plus their number (each guess is scored and advances
the index by 1); once `n - s` or more guesses have been made the game has ended with
`currentIndex = n - 1`; the score never exceeds `n - 1 - s`, nor the number of
guesses. -/
theorem game_length (fmul : ℚ → ℚ → ℚ) (today : Int) (random : ℚ) (symbol apiKey : String)
    (entries : List Entry) (a a0 : App) (s : Nat)
    (hpick : pickRandomStartIndex fmul today random entries = some s)
    (hstart : startGameWithData fmul today random symbol apiKey entries a = (a0, none))
    (dirs : List String) :
    (dirs.length ≤ entries.length - 1 - s →
      (guesses dirs a0).state.inProgress = true ∧
      (guesses dirs a0).state.currentIndex = some (s + dirs.length)) ∧
    (entries.length - s ≤ dirs.length →
      (guesses dirs a0).state.inProgress = false ∧
      (guesses dirs a0).state.currentIndex = some (entries.length - 1)) ∧
    (guesses dirs a0).state.score ≤ entries.length - 1 - s ∧
    (guesses dirs a0).state.score ≤ dirs.length := by
  obtain ⟨⟨h7, hnext⟩, hprog, hidx, hdata, hscore, hchart, _⟩ :=
    started_facts fmul today random symbol apiKey entries a a0 s hpick hstart
  have hsc := guesses_score dirs a0 s hprog hidx
  rw [hscore, Nat.zero_add, hdata] at hsc
  refine ⟨?_, ?_, ?_, ?_⟩
  · intro hle
    obtain ⟨g1, g2, _, _⟩ := guesses_scored_state dirs a0 s _ hprog hidx hchart
      (by rw [hdata]; omega)
    exact ⟨g1, g2⟩
  · intro hge
    have hsplit : dirs = dirs.take (entries.length - 1 - s) ++
        dirs.drop (entries.length - 1 - s) := (List.take_append_drop _ _).symm
    have htake : (dirs.take (entries.length - 1 - s)).length = entries.length - 1 - s := by
      rw [List.length_take]
      omega
    obtain ⟨g1, g2, g3, _⟩ := guesses_scored_state (dirs.take (entries.length - 1 - s)) a0 s _
      hprog hidx hchart (by rw [hdata, htake]; omega)
    rw [htake] at g2
    cases hdrop : dirs.drop (entries.length - 1 - s) with
    | nil =>
      have hlen := congrArg List.length hdrop
      rw [List.length_drop] at hlen
      simp only [List.length_nil] at hlen
      omega
    | cons d rest =>
      rw [hsplit, hdrop, guesses_append, guesses_cons]
      have hex := handleGuess_exhausted_state d
        (guesses (dirs.take (entries.length - 1 - s)) a0) (s + (entries.length - 1 - s)) g1 g2
        (by rw [g3, hdata]; omega)
      have hnp : (handleGuess d
          (guesses (dirs.take (entries.length - 1 - s)) a0)).state.inProgress = false := by
        rw [hex]
      rw [guesses_of_not_inProgress rest _ hnp, hex]
      refine ⟨rfl, ?_⟩
      show (guesses (dirs.take (entries.length - 1 - s)) a0).state.currentIndex = _
      rw [g2]
      congr 1
      omega
  · rw [hsc]
    exact correctCount_le_remaining entries dirs s
  · rw [hsc]
    exact correctCount_le_length entries dirs s

/-- On ten trading days from index 7: after two guesses the game is in progress at index
9, the third guess ends it at index 9, and the score stays within 2. -/
theorem game_length_witness :
    (guesses ["up", "up"] startedAt7).state.inProgress = true ∧
    (guesses ["up", "up"] startedAt7).state.currentIndex = some (7 + 2) ∧
    (guesses ["up", "up", "down"] startedAt7).state.inProgress = false ∧
    (guesses ["up", "up", "down"] startedAt7).state.currentIndex = some (10 - 1) ∧
    (guesses ["up", "up", "down"] startedAt7).state.score ≤ 10 - 1 - 7 :=
  ⟨((game_length exactProduct noon25Jan 0 "ibm" "demo" series10 (initialApp blankDom) startedAt7 7
      (by decide!) (by decide!) ["up", "up"]).1 (by decide)).1,
   ((game_length exactProduct noon25Jan 0 "ibm" "demo" series10 (initialApp blankDom) startedAt7 7
      (by decide!) (by decide!) ["up", "up"]).1 (by decide)).2,
   ((game_length exactProduct noon25Jan 0 "ibm" "demo" series10 (initialApp blankDom) startedAt7 7
      (by decide!) (by decide!) ["up", "up", "down"]).2.1 (by decide)).1,
   ((game_length exactProduct noon25Jan 0 "ibm" "demo" series10 (initialApp blankDom) startedAt7 7
      (by decide!) (by decide!) ["up", "up", "down"]).2.1 (by decide)).2,
   (game_length exactProduct noon25Jan 0 "ibm" "demo" series10 (initialApp blankDom) startedAt7 7
      (by decide!) (by decide!) ["up", "up", "down"]).2.2.1⟩

end StockGame
